import Mathlib

/-!
# FumoCement native bridge: embedding of `src/native/FumoCement.h`

Platform conventions fixed by the embedding (the ones the header is compiled
for): addresses and `std::size_t` are 64 bits wide, integers are two's
complement, `char` is a signed 8-bit type, objects are laid out little-endian.

JNI carrier types (declared by the JDK's `jni.h`, which the header includes):
`jbyte` signed 8 bits, `jshort` signed 16 bits, `jint` and `jsize` signed
32 bits, `jlong` signed 64 bits, `jchar` unsigned 16 bits.

Dereferencing an address that is not a live cell is undefined behaviour in
C++; the embedding returns `none` there.
-/

namespace FumoCement

/-! ## Machine integers -/

/-- Conversion to a signed `w`-bit integer type: the value is reduced modulo
`2^w` and the pattern is read as two's complement. -/
def wrapSigned (w : Nat) (x : Int) : Int :=
  if x % 2 ^ w < 2 ^ (w - 1) then x % 2 ^ w else x % 2 ^ w - 2 ^ w

/-- Conversion to an unsigned `w`-bit integer type: reduction modulo `2^w`. -/
def wrapUnsigned (w : Nat) (x : Int) : Int :=
  x % 2 ^ w

/-- Values of a signed `w`-bit integer type. -/
def IsSigned (w : Nat) (x : Int) : Prop :=
  -(2 ^ (w - 1)) ≤ x ∧ x < 2 ^ (w - 1)

/-- Values of an unsigned `w`-bit integer type. -/
def IsUnsigned (w : Nat) (x : Int) : Prop :=
  0 ≤ x ∧ x < 2 ^ w

instance (w : Nat) (x : Int) : Decidable (IsSigned w x) := by
  unfold IsSigned
  infer_instance

instance (w : Nat) (x : Int) : Decidable (IsUnsigned w x) := by
  unfold IsUnsigned
  infer_instance

/-- Values of `jbyte`. -/
def IsJByte (x : Int) : Prop := IsSigned 8 x

/-- Values of `jshort`. -/
def IsJShort (x : Int) : Prop := IsSigned 16 x

/-- Values of `jint`. -/
def IsJInt (x : Int) : Prop := IsSigned 32 x

/-- Values of `jlong`. -/
def IsJLong (x : Int) : Prop := IsSigned 64 x

/-- Values of `jchar`. -/
def IsJChar (x : Int) : Prop := IsUnsigned 16 x

instance (x : Int) : Decidable (IsJByte x) := by
  unfold IsJByte
  infer_instance

instance (x : Int) : Decidable (IsJShort x) := by
  unfold IsJShort
  infer_instance

instance (x : Int) : Decidable (IsJInt x) := by
  unfold IsJInt
  infer_instance

instance (x : Int) : Decidable (IsJLong x) := by
  unfold IsJLong
  infer_instance

instance (x : Int) : Decidable (IsJChar x) := by
  unfold IsJChar
  infer_instance

/-! ## Native heap -/

/-- Native heap: `mem` gives the byte stored at each address, `live` lists the
cells (address, size in bytes) obtained from `new` and not yet deleted. -/
structure Heap where
  mem : Nat → Nat
  live : List (Nat × Nat)

/-- Unsigned number held by the `n` bytes starting at address `a`. -/
def readBytes (mem : Nat → Nat) : Nat → Nat → Nat
  | _, 0 => 0
  | a, n + 1 => mem a % 256 + 256 * readBytes mem (a + 1) n

/-- Memory after the `n` bytes starting at address `a` receive the number `u`. -/
def writeBytes (mem : Nat → Nat) (a n u : Nat) : Nat → Nat :=
  fun q => if a ≤ q ∧ q < a + n then u / 256 ^ (q - a) % 256 else mem q

/-- Reading `*p` for a pointer `p` to a signed integer type of `n` bytes. -/
def derefSigned (heap : Heap) (p n : Nat) : Option Int :=
  if (p, n) ∈ heap.live then some (wrapSigned (8 * n) (readBytes heap.mem p n)) else none

/-- Reading `*p` for a pointer `p` to an unsigned integer type (or to an
address) of `n` bytes. -/
def derefUnsigned (heap : Heap) (p n : Nat) : Option Int :=
  if (p, n) ∈ heap.live then some (readBytes heap.mem p n) else none

/-- The assignment `*p = x` for a pointer `p` to an integer type of `n` bytes,
`x` being a value of that type. -/
def assign (heap : Heap) (p n : Nat) (x : Int) : Option Heap :=
  if (p, n) ∈ heap.live then
    some { heap with mem := writeBytes heap.mem p n (x % 2 ^ (8 * n)).toNat }
  else none

/-- The expression `new T` for a type of `n` bytes, `a` being the address the
allocator hands out; the cell's contents are left as they are. -/
def newCell (heap : Heap) (a n : Nat) : Heap :=
  { heap with live := (a, n) :: heap.live }

/-- The statement `delete p` for a pointer `p` to a type of `n` bytes. -/
def deleteCell (heap : Heap) (p n : Nat) : Option Heap :=
  if (p, n) ∈ heap.live then some { heap with live := heap.live.erase (p, n) } else none

/-! ## Pointer conversions -/

/-- Source function `toJavaPointer`: `reinterpret_cast<jlong>(nativePointer)`. -/
def toJavaPointer (nativePointer : Nat) : Int :=
  wrapSigned 64 nativePointer

/-- Source function `toNativePointer`: `reinterpret_cast<T*>(static_cast<std::size_t>(javaPointer))`. -/
def toNativePointer (javaPointer : Int) : Nat :=
  (wrapUnsigned 64 javaPointer).toNat

/-! ## Primitive cells -/

/-- Source function `Int8Pointer.getValue`. -/
def Java_com_github_novelrt_fumocement_builtin_Int8Pointer_getValue
    (heap : Heap) (handle : Int) : Option Int :=
  (derefSigned heap (toNativePointer handle) 1).map (wrapSigned 8)

/-- Source function `Int8Pointer.setValue`. -/
def Java_com_github_novelrt_fumocement_builtin_Int8Pointer_setValue
    (heap : Heap) (handle value : Int) : Option Heap :=
  assign heap (toNativePointer handle) 1 (wrapSigned 8 value)

/-- Source function `Int16Pointer.getValue`. -/
def Java_com_github_novelrt_fumocement_builtin_Int16Pointer_getValue
    (heap : Heap) (handle : Int) : Option Int :=
  (derefSigned heap (toNativePointer handle) 2).map (wrapSigned 16)

/-- Source function `Int16Pointer.setValue`. -/
def Java_com_github_novelrt_fumocement_builtin_Int16Pointer_setValue
    (heap : Heap) (handle value : Int) : Option Heap :=
  assign heap (toNativePointer handle) 2 (wrapSigned 16 value)

/-- Source function `Int32Pointer.allocatePointer`, `fresh` being the address `new` returns. -/
def Java_com_github_novelrt_fumocement_builtin_Int32Pointer_allocatePointer
    (heap : Heap) (fresh : Nat) : Int × Heap :=
  (toJavaPointer fresh, newCell heap fresh 4)

/-- Source function `Int32Pointer.destroyPointer`. -/
def Java_com_github_novelrt_fumocement_builtin_Int32Pointer_destroyPointer
    (heap : Heap) (handle : Int) : Option Heap :=
  deleteCell heap (toNativePointer handle) 4

/-- Source function `Int32Pointer.getValue`. -/
def Java_com_github_novelrt_fumocement_builtin_Int32Pointer_getValue
    (heap : Heap) (handle : Int) : Option Int :=
  (derefSigned heap (toNativePointer handle) 4).map (wrapSigned 32)

/-- Source function `Int32Pointer.setValue`. -/
def Java_com_github_novelrt_fumocement_builtin_Int32Pointer_setValue
    (heap : Heap) (handle value : Int) : Option Heap :=
  assign heap (toNativePointer handle) 4 (wrapSigned 32 value)

/-- Source function `Int64Pointer.getValue`. -/
def Java_com_github_novelrt_fumocement_builtin_Int64Pointer_getValue
    (heap : Heap) (handle : Int) : Option Int :=
  (derefSigned heap (toNativePointer handle) 8).map (wrapSigned 64)

/-- Source function `Int64Pointer.setValue`. -/
def Java_com_github_novelrt_fumocement_builtin_Int64Pointer_setValue
    (heap : Heap) (handle value : Int) : Option Heap :=
  assign heap (toNativePointer handle) 8 (wrapSigned 64 value)

/-- Source function `UInt8Pointer.getUnsignedValue`: the `std::uint8_t` is cast to `jbyte`. -/
def Java_com_github_novelrt_fumocement_builtin_UInt8Pointer_getUnsignedValue
    (heap : Heap) (handle : Int) : Option Int :=
  (derefUnsigned heap (toNativePointer handle) 1).map (wrapSigned 8)

/-- Source function `UInt8Pointer.setUnsignedValue`: the `jbyte` is cast to `std::uint8_t`. -/
def Java_com_github_novelrt_fumocement_builtin_UInt8Pointer_setUnsignedValue
    (heap : Heap) (handle value : Int) : Option Heap :=
  assign heap (toNativePointer handle) 1 (wrapUnsigned 8 value)

/-- Source function `UInt16Pointer.getUnsignedValue`: the `std::uint16_t` is cast to `jchar`. -/
def Java_com_github_novelrt_fumocement_builtin_UInt16Pointer_getUnsignedValue
    (heap : Heap) (handle : Int) : Option Int :=
  (derefUnsigned heap (toNativePointer handle) 2).map (wrapUnsigned 16)

/-- Source function `UInt16Pointer.setUnsignedValue`: the `jchar` is cast to `std::uint16_t`. -/
def Java_com_github_novelrt_fumocement_builtin_UInt16Pointer_setUnsignedValue
    (heap : Heap) (handle value : Int) : Option Heap :=
  assign heap (toNativePointer handle) 2 (wrapUnsigned 16 value)

/-- Source function `UInt32Pointer.getUnsignedValue`: the `std::uint32_t` is cast to `jint`. -/
def Java_com_github_novelrt_fumocement_builtin_UInt32Pointer_getUnsignedValue
    (heap : Heap) (handle : Int) : Option Int :=
  (derefUnsigned heap (toNativePointer handle) 4).map (wrapSigned 32)

/-- Source function `UInt32Pointer.setUnsignedValue`: the `jint` is cast to `std::uint32_t`. -/
def Java_com_github_novelrt_fumocement_builtin_UInt32Pointer_setUnsignedValue
    (heap : Heap) (handle value : Int) : Option Heap :=
  assign heap (toNativePointer handle) 4 (wrapUnsigned 32 value)

/-- Source function `UInt64Pointer.getUnsignedValue`: the `std::uint64_t` is cast to `jlong`. -/
def Java_com_github_novelrt_fumocement_builtin_UInt64Pointer_getUnsignedValue
    (heap : Heap) (handle : Int) : Option Int :=
  (derefUnsigned heap (toNativePointer handle) 8).map (wrapSigned 64)

/-- Source function `UInt64Pointer.setUnsignedValue`: the `jlong` is cast to `std::uint64_t`. -/
def Java_com_github_novelrt_fumocement_builtin_UInt64Pointer_setUnsignedValue
    (heap : Heap) (handle value : Int) : Option Heap :=
  assign heap (toNativePointer handle) 8 (wrapUnsigned 64 value)

/-- Source function `IndirectedPointer.getNativeUnderlyingHandle`: the address stored in the
`void*` cell, passed through `toJavaPointer`. -/
def Java_com_github_novelrt_fumocement_IndirectedPointer_getNativeUnderlyingHandle
    (heap : Heap) (handle : Int) : Option Int :=
  (derefUnsigned heap (toNativePointer handle) 8).map (fun p => toJavaPointer p.toNat)

/-- Source function `IndirectedPointer.setNativeUnderlyingHandle`: stores
`toNativePointer<void>(value)` in the `void*` cell. -/
def Java_com_github_novelrt_fumocement_IndirectedPointer_setNativeUnderlyingHandle
    (heap : Heap) (handle value : Int) : Option Heap :=
  assign heap (toNativePointer handle) 8 (toNativePointer value)

/-- The eight integer cell kinds of the header. -/
inductive Kind where
  | int8 | int16 | int32 | int64 | uint8 | uint16 | uint32 | uint64
  deriving DecidableEq

/-- Size in bytes of the native cell of a kind. -/
def Kind.size : Kind → Nat
  | .int8 => 1 | .int16 => 2 | .int32 => 4 | .int64 => 8
  | .uint8 => 1 | .uint16 => 2 | .uint32 => 4 | .uint64 => 8

/-- Values of the JNI type a kind's accessors exchange with the host
(`jbyte`, `jshort`, `jint`, `jlong`, `jbyte`, `jchar`, `jint`, `jlong`). -/
def Kind.Carrier : Kind → Int → Prop
  | .int8 => IsJByte | .int16 => IsJShort | .int32 => IsJInt | .int64 => IsJLong
  | .uint8 => IsJByte | .uint16 => IsJChar | .uint32 => IsJInt | .uint64 => IsJLong

instance (k : Kind) (x : Int) : Decidable (k.Carrier x) := by
  cases k <;> (simp only [Kind.Carrier]; infer_instance)

/-- Width in bits of the native cell of a kind. -/
def Kind.bits (k : Kind) : Nat := 8 * k.size

/-- A heap whose only live cell is the `n`-byte cell at address `a`, every
byte holding `255`. -/
def Heap.allOnes (a n : Nat) : Heap :=
  { mem := fun _ => 255, live := [(a, n)] }

/-- The read accessor of a kind (`getValue` or `getUnsignedValue`). -/
def Kind.get : Kind → Heap → Int → Option Int
  | .int8 => Java_com_github_novelrt_fumocement_builtin_Int8Pointer_getValue
  | .int16 => Java_com_github_novelrt_fumocement_builtin_Int16Pointer_getValue
  | .int32 => Java_com_github_novelrt_fumocement_builtin_Int32Pointer_getValue
  | .int64 => Java_com_github_novelrt_fumocement_builtin_Int64Pointer_getValue
  | .uint8 => Java_com_github_novelrt_fumocement_builtin_UInt8Pointer_getUnsignedValue
  | .uint16 => Java_com_github_novelrt_fumocement_builtin_UInt16Pointer_getUnsignedValue
  | .uint32 => Java_com_github_novelrt_fumocement_builtin_UInt32Pointer_getUnsignedValue
  | .uint64 => Java_com_github_novelrt_fumocement_builtin_UInt64Pointer_getUnsignedValue

/-- The write accessor of a kind (`setValue` or `setUnsignedValue`). -/
def Kind.set : Kind → Heap → Int → Int → Option Heap
  | .int8 => Java_com_github_novelrt_fumocement_builtin_Int8Pointer_setValue
  | .int16 => Java_com_github_novelrt_fumocement_builtin_Int16Pointer_setValue
  | .int32 => Java_com_github_novelrt_fumocement_builtin_Int32Pointer_setValue
  | .int64 => Java_com_github_novelrt_fumocement_builtin_Int64Pointer_setValue
  | .uint8 => Java_com_github_novelrt_fumocement_builtin_UInt8Pointer_setUnsignedValue
  | .uint16 => Java_com_github_novelrt_fumocement_builtin_UInt16Pointer_setUnsignedValue
  | .uint32 => Java_com_github_novelrt_fumocement_builtin_UInt32Pointer_setUnsignedValue
  | .uint64 => Java_com_github_novelrt_fumocement_builtin_UInt64Pointer_setUnsignedValue

/-- A handle is live for cells of `n` bytes when the address it encodes is a
cell of that size obtained from `new` and not yet deleted. -/
def LiveCell (heap : Heap) (handle : Int) (n : Nat) : Prop :=
  (toNativePointer handle, n) ∈ heap.live

instance (heap : Heap) (handle : Int) (n : Nat) : Decidable (LiveCell heap handle n) := by
  unfold LiveCell
  infer_instance

/-- A heap whose only live cell is the `n`-byte cell at address `a`, all bytes zero. -/
def Heap.single (a n : Nat) : Heap :=
  { mem := fun _ => 0, live := [(a, n)] }

/-- Source function `DoublePointer.getValue`. A `double` is carried as the
64-bit pattern of its object representation, which the accessor copies. -/
def Java_com_github_novelrt_fumocement_builtin_DoublePointer_getValue
    (heap : Heap) (handle : Int) : Option Int :=
  derefUnsigned heap (toNativePointer handle) 8

/-- Source function `DoublePointer.setValue`. -/
def Java_com_github_novelrt_fumocement_builtin_DoublePointer_setValue
    (heap : Heap) (handle value : Int) : Option Heap :=
  assign heap (toNativePointer handle) 8 value

/-- Source function `FloatPointer.getValue`. A `float` is carried as the
32-bit pattern of its object representation, which the accessor copies. -/
def Java_com_github_novelrt_fumocement_builtin_FloatPointer_getValue
    (heap : Heap) (handle : Int) : Option Int :=
  derefUnsigned heap (toNativePointer handle) 4

/-- Source function `FloatPointer.setValue`. -/
def Java_com_github_novelrt_fumocement_builtin_FloatPointer_setValue
    (heap : Heap) (handle value : Int) : Option Heap :=
  assign heap (toNativePointer handle) 4 value

/-- The primitive cell kinds of the header: the eight integer kinds, the two
floating-point kinds and the indirected (address-of-address) kind. -/
inductive CellKind where
  | integer (k : Kind)
  | float32
  | float64
  | indirected
  deriving DecidableEq

/-- Size in bytes of the native cell of a kind. -/
def CellKind.size : CellKind → Nat
  | CellKind.integer k => k.size
  | CellKind.float32 => 4
  | CellKind.float64 => 8
  | CellKind.indirected => 8

/-- The read accessor of a kind. -/
def CellKind.get : CellKind → Heap → Int → Option Int
  | CellKind.integer k => k.get
  | CellKind.float32 => Java_com_github_novelrt_fumocement_builtin_FloatPointer_getValue
  | CellKind.float64 => Java_com_github_novelrt_fumocement_builtin_DoublePointer_getValue
  | CellKind.indirected =>
    Java_com_github_novelrt_fumocement_IndirectedPointer_getNativeUnderlyingHandle

/-- The write accessor of a kind. -/
def CellKind.set : CellKind → Heap → Int → Int → Option Heap
  | CellKind.integer k => k.set
  | CellKind.float32 => Java_com_github_novelrt_fumocement_builtin_FloatPointer_setValue
  | CellKind.float64 => Java_com_github_novelrt_fumocement_builtin_DoublePointer_setValue
  | CellKind.indirected =>
    Java_com_github_novelrt_fumocement_IndirectedPointer_setNativeUnderlyingHandle

/-- The `n` bytes from address `a` and the `m` bytes from address `b` do not
overlap. -/
def CellsApart (a n b m : Nat) : Prop :=
  a + n ≤ b ∨ b + m ≤ a

instance (a n b m : Nat) : Decidable (CellsApart a n b m) := by
  unfold CellsApart
  infer_instance

/-- A call of an accessor from the host. -/
inductive Access where
  | get (k : CellKind) (handle : Int)
  | set (k : CellKind) (handle value : Int)

/-- An accessor call as a transition of the heap: the value handed back to the
host (`none` for the `void` write accessors) and the heap the call leaves. -/
def Access.run : Access → Heap → Option (Option Int × Heap)
  | Access.get k handle, heap => (k.get heap handle).map (fun value => (some value, heap))
  | Access.set k handle value, heap => (k.set heap handle value).map (fun after => (none, after))

/-- A heap with an int8 cell at address 4096 and an int64 cell at address
4104, every byte holding `255`. -/
def Heap.twoCells : Heap :=
  { mem := fun _ => 255, live := [(4096, 1), (4104, 8)] }

/-! ## Byte strings -/

/-- Largest value of `int` and of `jsize`. -/
def INT_MAX : Nat := 2147483647

/-- A non-null `jbyteArray`: at most `INT_MAX` elements, each a `jbyte`. -/
def IsJByteArray (bytes : List Int) : Prop :=
  bytes.length ≤ INT_MAX ∧ ∀ b ∈ bytes, IsJByte b

instance (bytes : List Int) : Decidable (IsJByteArray bytes) := by
  unfold IsJByteArray
  infer_instance

/-- Source function `toCppString`. A `jbyteArray` is `none` when null and otherwise the list of
its elements; the result is the `std::optional<std::string>`, a string being
the list of its characters. The string starts as `byteArraySize` copies of
`'.'` (46) and the loop overwrites index `i` with `static_cast<char>` of the
`i`-th element. -/
def toCppString (javaStringBytes : Option (List Int)) : Option (List Int) :=
  match javaStringBytes with
  | none => none
  | some bytePointer =>
    let byteArraySize := bytePointer.length
    some ((List.range byteArraySize).foldl
      (fun result i => result.set i (wrapSigned 8 (bytePointer.getD i 0)))
      (List.replicate byteArraySize 46))

/-- A native character buffer as a `const char*` sees it: `chars` are the
characters readable from the pointer on, `fromNewArray` tells whether the
buffer was obtained from `new[]` (and may be passed to `delete[]`). -/
structure CString where
  chars : List Int
  fromNewArray : Bool
  deriving DecidableEq

/-- Source function `passAsC` on `std::optional<std::string>`: null for an absent string,
otherwise `c_str()`, the string's own buffer, whose characters are followed by
a terminating zero. -/
def passAsC (cppString : Option (List Int)) : Option CString :=
  match cppString with
  | none => none
  | some value => some { chars := value ++ [0], fromNewArray := false }

/-- C library function `strlen`: number of characters before the first zero; reading past the
buffer without meeting a zero is undefined (`none`). -/
def strlen : List Int → Option Nat
  | [] => none
  | c :: rest => if c = 0 then some 0 else (strlen rest).map (· + 1)

/-- The loop `for (int i = 0; cString[i] != '\0'; i++) byteBuffer[i] = ...` of
`toJavaStringBytes`, started at index `i` with the buffer from index `i` on.
Incrementing `i` beyond `INT_MAX` and reading past the buffer are undefined
(`none`). -/
def toJavaStringBytes_loop : List Int → Nat → List Int → Option (List Int)
  | [], _, _ => none
  | c :: rest, i, byteBuffer =>
    if c = 0 then some byteBuffer
    else if i + 1 ≤ INT_MAX then
      toJavaStringBytes_loop rest (i + 1) (byteBuffer.set i (wrapSigned 8 c))
    else none

/-- JNI `SetByteArrayRegion`: copies `len` elements of `buf` into `array` from
index `start` on. -/
def SetByteArrayRegion (array : List Int) (start len : Nat) (buf : List Int) : List Int :=
  array.take start ++ buf.take len ++ array.drop (start + len)

/-- What a call of `toJavaStringBytes` leaves: the returned `jbyteArray`
(`none` for null) and whether `delete[] cString` was executed. -/
structure JavaStringBytes where
  charactersArray : Option (List Int)
  deleted : Bool
  deriving DecidableEq

/-- Source function `toJavaStringBytes`; the outer `none` stands for undefined behaviour. The
`std::size_t` length is converted to `jsize` for `NewByteArray`, which gives a
zero-filled array; `delete[]` is defined only on a buffer from `new[]`. -/
def toJavaStringBytes (cString : Option CString) (deleteString : Bool) :
    Option JavaStringBytes :=
  match cString with
  | none => some { charactersArray := none, deleted := false }
  | some buffer =>
    match strlen buffer.chars with
    | none => none
    | some stringLength =>
      match toJavaStringBytes_loop buffer.chars 0 (List.replicate stringLength 0) with
      | none => none
      | some byteBuffer =>
        let length := wrapSigned 32 stringLength
        if length < 0 then none
        else
          let charactersArray := SetByteArrayRegion (List.replicate length.toNat 0) 0
            length.toNat byteBuffer
          if deleteString then
            if buffer.fromNewArray then
              some { charactersArray := some charactersArray, deleted := true }
            else none
          else some { charactersArray := some charactersArray, deleted := false }

/-- The first zero of `chars` is at index `n`. -/
def FirstZeroAt (chars : List Int) (n : Nat) : Prop :=
  chars[n]? = some 0 ∧ ∀ j, j < n → chars[j]? ≠ some 0

instance (chars : List Int) (n : Nat) : Decidable (FirstZeroAt chars n) := by
  unfold FirstZeroAt
  infer_instance

/-- A buffer of `INT_MAX + 1` characters `1` followed by the terminating zero. -/
def longBuffer : CString :=
  { chars := List.replicate (INT_MAX + 1) 1 ++ [0], fromNewArray := true }

/-! ## Handle cache -/

/-- The function-local `static` of a resolver template instantiation: one per
class name for `getCachedClass`, one per (class, member name, signature) for
each of `getCachedField`, `getCachedMethod` and `getCachedStaticMethod`. -/
inductive Slot where
  | cachedClass (Class : String)
  | cachedField (Class FieldName Signature : String)
  | cachedMethod (Class MethodName Signature : String)
  | cachedStaticMethod (Class MethodName Signature : String)
  deriving DecidableEq

/-- The JNI functions the resolvers call through `env`, over a host runtime
with states `σ`: each takes the runtime's state and the `JNIEnv*` of the call,
and gives the handle it returns (0 is the null handle) and the runtime's next
state. -/
structure HostRuntime (σ : Type) where
  FindClass : σ → Nat → String → Nat × σ
  NewGlobalRef : σ → Nat → Nat → Nat × σ
  GetFieldID : σ → Nat → Nat → String → String → Nat × σ
  GetMethodID : σ → Nat → Nat → String → String → Nat × σ
  GetStaticMethodID : σ → Nat → Nat → String → String → Nat × σ

/-- State of the process as the resolvers see it: the host runtime, the
statics (`none` while not yet initialised) and, as instrumentation, the
reflective lookups made so far, each recorded under the slot it was made for. -/
structure Process (σ : Type) where
  host : σ
  statics : Slot → Option Nat
  lookups : List Slot

/-- The process before any resolver has run. -/
def Process.start {σ : Type} (host : σ) : Process σ :=
  { host := host, statics := fun _ => none, lookups := [] }

/-- Source function `getCachedClass<Class>(env)`: the static is initialised on the first call
with `NewGlobalRef(FindClass(Class::Value))` and returned on every call. -/
def getCachedClass {σ : Type} (jni : HostRuntime σ) (Class : String) (env : Nat)
    (p : Process σ) : Nat × Process σ :=
  match p.statics (Slot.cachedClass Class) with
  | some value => (value, p)
  | none =>
    let found := jni.FindClass p.host env Class
    let value := jni.NewGlobalRef found.2 env found.1
    (value.1,
      { host := value.2,
        statics := Function.update p.statics (Slot.cachedClass Class) (some value.1),
        lookups := p.lookups ++ [Slot.cachedClass Class] })

/-- Source function `getCachedField<Class, FieldName, Signature>(env)`. -/
def getCachedField {σ : Type} (jni : HostRuntime σ) (Class FieldName Signature : String)
    (env : Nat) (p : Process σ) : Nat × Process σ :=
  match p.statics (Slot.cachedField Class FieldName Signature) with
  | some value => (value, p)
  | none =>
    let containerClass := getCachedClass jni Class env p
    let value := jni.GetFieldID containerClass.2.host env containerClass.1 FieldName Signature
    (value.1,
      { host := value.2,
        statics := Function.update containerClass.2.statics
          (Slot.cachedField Class FieldName Signature) (some value.1),
        lookups := containerClass.2.lookups ++ [Slot.cachedField Class FieldName Signature] })

/-- Source function `getCachedMethod<Class, MethodName, Signature>(env)`. -/
def getCachedMethod {σ : Type} (jni : HostRuntime σ) (Class MethodName Signature : String)
    (env : Nat) (p : Process σ) : Nat × Process σ :=
  match p.statics (Slot.cachedMethod Class MethodName Signature) with
  | some value => (value, p)
  | none =>
    let containerClass := getCachedClass jni Class env p
    let value := jni.GetMethodID containerClass.2.host env containerClass.1 MethodName Signature
    (value.1,
      { host := value.2,
        statics := Function.update containerClass.2.statics
          (Slot.cachedMethod Class MethodName Signature) (some value.1),
        lookups := containerClass.2.lookups ++ [Slot.cachedMethod Class MethodName Signature] })

/-- Source function `getCachedStaticMethod<Class, MethodName, Signature>(env)`. -/
def getCachedStaticMethod {σ : Type} (jni : HostRuntime σ)
    (Class MethodName Signature : String) (env : Nat) (p : Process σ) : Nat × Process σ :=
  match p.statics (Slot.cachedStaticMethod Class MethodName Signature) with
  | some value => (value, p)
  | none =>
    let containerClass := getCachedClass jni Class env p
    let value :=
      jni.GetStaticMethodID containerClass.2.host env containerClass.1 MethodName Signature
    (value.1,
      { host := value.2,
        statics := Function.update containerClass.2.statics
          (Slot.cachedStaticMethod Class MethodName Signature) (some value.1),
        lookups := containerClass.2.lookups ++
          [Slot.cachedStaticMethod Class MethodName Signature] })

/-- A resolve call: the `JNIEnv*` the caller passes and the resolver
instantiation it calls. -/
structure Call where
  env : Nat
  slot : Slot
  deriving DecidableEq

/-- One resolve call. -/
def resolve {σ : Type} (jni : HostRuntime σ) (c : Call) (p : Process σ) : Nat × Process σ :=
  match c.slot with
  | Slot.cachedClass C => getCachedClass jni C c.env p
  | Slot.cachedField C F S => getCachedField jni C F S c.env p
  | Slot.cachedMethod C M S => getCachedMethod jni C M S c.env p
  | Slot.cachedStaticMethod C M S => getCachedStaticMethod jni C M S c.env p

/-- A sequence of resolve calls, one after the other: the handles returned, in
order, and the final state. -/
def resolveAll {σ : Type} (jni : HostRuntime σ) : List Call → Process σ → List Nat × Process σ
  | [], p => ([], p)
  | c :: cs, p =>
    let r := resolve jni c p
    let rest := resolveAll jni cs r.2
    (r.1 :: rest.1, rest.2)

/-- Class named by a slot. -/
def Slot.className : Slot → String
  | Slot.cachedClass C => C
  | Slot.cachedField C _ _ => C
  | Slot.cachedMethod C _ _ => C
  | Slot.cachedStaticMethod C _ _ => C

/-- A call on `called` needs `target` resolved: `target` is the called slot
itself or the slot of its class. -/
def Slot.needs (called target : Slot) : Bool :=
  decide (target = called) || decide (target = Slot.cachedClass called.className)

/-- A host runtime that numbers its lookups: its state counts the lookups made,
and the `n`-th lookup returns the handle `100 + n` (`NewGlobalRef` returns its
argument). -/
def countingRuntime : HostRuntime Nat :=
  { FindClass := fun n _ _ => (100 + n, n + 1)
    NewGlobalRef := fun n _ obj => (obj, n)
    GetFieldID := fun n _ _ _ _ => (100 + n, n + 1)
    GetMethodID := fun n _ _ _ _ => (100 + n, n + 1)
    GetStaticMethodID := fun n _ _ _ _ => (100 + n, n + 1) }

/-- A host runtime in which no class and no member exists: every lookup
returns the null handle. -/
def emptyRuntime : HostRuntime Unit :=
  { FindClass := fun _ _ _ => (0, ())
    NewGlobalRef := fun _ _ obj => (obj, ())
    GetFieldID := fun _ _ _ _ _ => (0, ())
    GetMethodID := fun _ _ _ _ _ => (0, ())
    GetStaticMethodID := fun _ _ _ _ _ => (0, ()) }

/-- Common shape of `getCachedField`, `getCachedMethod` and
`getCachedStaticMethod`, `lookup` being the JNI function of the resolver; the
three are instances of it, and the lemmas on them are proved on it once. -/
def cachedMember {σ : Type} (jni : HostRuntime σ)
    (lookup : σ → Nat → Nat → String → String → Nat × σ) (slot : Slot)
    (Name Signature : String) (env : Nat) (p : Process σ) : Nat × Process σ :=
  match p.statics slot with
  | some value => (value, p)
  | none =>
    let containerClass := getCachedClass jni slot.className env p
    let value := lookup containerClass.2.host env containerClass.1 Name Signature
    (value.1,
      { host := value.2,
        statics := Function.update containerClass.2.statics slot (some value.1),
        lookups := containerClass.2.lookups ++ [slot] })

/-- Invariant of the cache: a slot has had one lookup when its static is
initialised and none otherwise, and the class of an initialised slot is
initialised. -/
def CacheInv {σ : Type} (p : Process σ) : Prop :=
  (∀ s, p.lookups.count s = if (p.statics s).isSome then 1 else 0) ∧
  (∀ s, (p.statics s).isSome = true →
    (p.statics (Slot.cachedClass s.className)).isSome = true)

/-- What one resolve call on `called` does to the process `p`, `r` being the
handle it returns and the state it leaves. -/
def StepSpec {σ : Type} (called : Slot) (p : Process σ) (r : Nat × Process σ) : Prop :=
  CacheInv r.2 ∧ r.2.statics called = some r.1 ∧
  (∀ s v, p.statics s = some v → r.2.statics s = some v) ∧
  (∀ s, (r.2.statics s).isSome = ((p.statics s).isSome || called.needs s)) ∧
  (∀ v, p.statics called = some v → r = (v, p))

/-- A host runtime in which every class exists (handle 5) and has no members:
every member lookup returns the null handle. -/
def memberlessRuntime : HostRuntime Unit :=
  { FindClass := fun _ _ _ => (5, ())
    NewGlobalRef := fun _ _ obj => (obj, ())
    GetFieldID := fun _ _ _ _ _ => (0, ())
    GetMethodID := fun _ _ _ _ _ => (0, ())
    GetStaticMethodID := fun _ _ _ _ _ => (0, ()) }

/-- State of the process after the resolve calls `pre`, from its start. -/
def stateAfter {σ : Type} (jni : HostRuntime σ) (host : σ) (pre : List Call) : Process σ :=
  (resolveAll jni pre (Process.start host)).2

/-- Three calls of `getCachedField` on the same triple, from three threads. -/
def sampleCalls : List Call :=
  [{ env := 1, slot := Slot.cachedField "A" "f" "I" },
   { env := 2, slot := Slot.cachedField "A" "f" "I" },
   { env := 3, slot := Slot.cachedField "A" "f" "I" }]

/-- An invocation of a JNI function, as the host runtime sees it: the
`JNIEnv*` it was made through, its arguments and the handle it returned. -/
inductive JNICall where
  | FindClass (env : Nat) (name : String) (result : Nat)
  | NewGlobalRef (env : Nat) (obj : Nat) (result : Nat)
  | GetFieldID (env : Nat) (clazz : Nat) (name sig : String) (result : Nat)
  | GetMethodID (env : Nat) (clazz : Nat) (name sig : String) (result : Nat)
  | GetStaticMethodID (env : Nat) (clazz : Nat) (name sig : String) (result : Nat)
  deriving DecidableEq

/-- The host runtime with a resolution counter: every JNI function answers as
in `jni` and the runtime records the invocation, in order, next to its state.
The record is kept by the runtime, not by the resolvers. -/
def HostRuntime.traced {σ : Type} (jni : HostRuntime σ) : HostRuntime (σ × List JNICall) :=
  { FindClass := fun st env name =>
      ((jni.FindClass st.1 env name).1,
        ((jni.FindClass st.1 env name).2,
          st.2 ++ [JNICall.FindClass env name (jni.FindClass st.1 env name).1]))
    NewGlobalRef := fun st env obj =>
      ((jni.NewGlobalRef st.1 env obj).1,
        ((jni.NewGlobalRef st.1 env obj).2,
          st.2 ++ [JNICall.NewGlobalRef env obj (jni.NewGlobalRef st.1 env obj).1]))
    GetFieldID := fun st env clazz name sig =>
      ((jni.GetFieldID st.1 env clazz name sig).1,
        ((jni.GetFieldID st.1 env clazz name sig).2,
          st.2 ++ [JNICall.GetFieldID env clazz name sig
            (jni.GetFieldID st.1 env clazz name sig).1]))
    GetMethodID := fun st env clazz name sig =>
      ((jni.GetMethodID st.1 env clazz name sig).1,
        ((jni.GetMethodID st.1 env clazz name sig).2,
          st.2 ++ [JNICall.GetMethodID env clazz name sig
            (jni.GetMethodID st.1 env clazz name sig).1]))
    GetStaticMethodID := fun st env clazz name sig =>
      ((jni.GetStaticMethodID st.1 env clazz name sig).1,
        ((jni.GetStaticMethodID st.1 env clazz name sig).2,
          st.2 ++ [JNICall.GetStaticMethodID env clazz name sig
            (jni.GetStaticMethodID st.1 env clazz name sig).1])) }

/-- The recorded invocation is the reflective lookup of the slot: `FindClass`
of the class name for a `getCachedClass` slot, and for a member slot the JNI
function of its resolver on the slot's member name and signature. -/
def Slot.isLookupOf : Slot → JNICall → Bool
  | Slot.cachedClass C, JNICall.FindClass _ name _ => decide (name = C)
  | Slot.cachedField _ F S, JNICall.GetFieldID _ _ name sig _ =>
    decide (name = F) && decide (sig = S)
  | Slot.cachedMethod _ M S, JNICall.GetMethodID _ _ name sig _ =>
    decide (name = M) && decide (sig = S)
  | Slot.cachedStaticMethod _ M S, JNICall.GetStaticMethodID _ _ name sig _ =>
    decide (name = M) && decide (sig = S)
  | _, _ => false

/-- The invocations a first call of a slot makes through `env`. For a
`getCachedClass` slot: `FindClass` giving `found`, then `NewGlobalRef` of
`found` giving `value`. For a member slot: when the class static is still
uninitialised (`classBefore = none`) the two invocations of its class giving
`cls`, and then the member lookup on the class handle giving `value`. -/
def firstCallTrace (s : Slot) (env : Nat) (classBefore : Option Nat)
    (found cls value : Nat) : List JNICall :=
  match s with
  | Slot.cachedClass C =>
    [JNICall.FindClass env C found, JNICall.NewGlobalRef env found value]
  | Slot.cachedField C F S =>
    match classBefore with
    | some c => [JNICall.GetFieldID env c F S value]
    | none =>
      [JNICall.FindClass env C found, JNICall.NewGlobalRef env found cls,
        JNICall.GetFieldID env cls F S value]
  | Slot.cachedMethod C M S =>
    match classBefore with
    | some c => [JNICall.GetMethodID env c M S value]
    | none =>
      [JNICall.FindClass env C found, JNICall.NewGlobalRef env found cls,
        JNICall.GetMethodID env cls M S value]
  | Slot.cachedStaticMethod C M S =>
    match classBefore with
    | some c => [JNICall.GetStaticMethodID env c M S value]
    | none =>
      [JNICall.FindClass env C found, JNICall.NewGlobalRef env found cls,
        JNICall.GetStaticMethodID env cls M S value]

/-- State of the process, on the runtime with the resolution counter, after
the resolve calls `pre` from its start. -/
def tracedAfter {σ : Type} (jni : HostRuntime σ) (host : σ) (pre : List Call) :
    Process (σ × List JNICall) :=
  (resolveAll jni.traced pre (Process.start (host, []))).2

/-! ## Callback context -/

/-- JNI result code `JNI_OK`. -/
def JNI_OK : Int := 0

/-- JNI result code `JNI_EDETACHED`: the thread is not attached to the VM. -/
def JNI_EDETACHED : Int := -2

/-- JNI result code `JNI_EVERSION`: the requested version is not supported. -/
def JNI_EVERSION : Int := -3

/-- JNI version constant `JNI_VERSION_1_2`. -/
def JNI_VERSION_1_2 : Int := 65538

/-- The two `JavaVM` functions `getEnv` calls, as the calling thread sees them:
each gives its result code and the accessor it writes to `env`. -/
structure JavaVM where
  GetEnv : Int → Int × Nat
  AttachCurrentThreadAsDaemon : Int × Nat

/-- A `JavaVM` function invoked by `getEnv`. -/
inductive VMCall where
  | GetEnv
  | AttachCurrentThreadAsDaemon
  deriving DecidableEq

/-- Source structure `FunctionPointerContext`. -/
structure FunctionPointerContext where
  javaVm : JavaVM
  globalObjectRef : Nat

/-- How `getEnv` ends: it returns an accessor or throws `std::runtime_error`. -/
inductive EnvResult where
  | returned (env : Nat)
  | runtime_error (what : String)
  deriving DecidableEq

/-- Source function `FunctionPointerContext::getEnv`: how the call ends and the `JavaVM`
functions it invoked, in order. -/
def FunctionPointerContext.getEnv (ctx : FunctionPointerContext) : EnvResult × List VMCall :=
  let result := ctx.javaVm.GetEnv JNI_VERSION_1_2
  if result.1 = JNI_OK then
    (EnvResult.returned result.2, [VMCall.GetEnv])
  else if result.1 = JNI_EDETACHED then
    let attachResult := ctx.javaVm.AttachCurrentThreadAsDaemon
    if attachResult.1 = JNI_OK then
      (EnvResult.returned attachResult.2, [VMCall.GetEnv, VMCall.AttachCurrentThreadAsDaemon])
    else
      (EnvResult.runtime_error "JNI: Failed to attach to current thread.",
        [VMCall.GetEnv, VMCall.AttachCurrentThreadAsDaemon])
  else
    (EnvResult.runtime_error "JNI: Failed to get an instance of JNIEnv", [VMCall.GetEnv])

/-- A context whose VM reports `JNI_EVERSION` from `GetEnv` and would attach
the thread successfully (accessor 7) if asked. -/
def versionErrorContext : FunctionPointerContext :=
  { javaVm := { GetEnv := fun _ => (JNI_EVERSION, 0), AttachCurrentThreadAsDaemon := (JNI_OK, 7) }
    globalObjectRef := 1 }

/-- A context whose VM reports the thread as detached and attaches it
successfully (accessor 7). -/
def detachedContext : FunctionPointerContext :=
  { javaVm := { GetEnv := fun _ => (JNI_EDETACHED, 0), AttachCurrentThreadAsDaemon := (JNI_OK, 7) }
    globalObjectRef := 1 }

/-! ## Lemmas on the heap -/

theorem readBytes_writeBytes_offset (mem : Nat → Nat) (a n u : Nat) :
    ∀ k j, j + k ≤ n →
      readBytes (writeBytes mem a n u) (a + j) k = u / 256 ^ j % 256 ^ k := by
  intro k
  induction k with
  | zero => intro j _; simp [readBytes, Nat.mod_one]
  | succ k ih =>
    intro j hj
    have h1 : writeBytes mem a n u (a + j) = u / 256 ^ j % 256 := by
      have hc : a ≤ a + j ∧ a + j < a + n := ⟨by omega, by omega⟩
      simp [writeBytes, hc]
    have h2 := ih (j + 1) (by omega)
    rw [readBytes, h1, Nat.add_assoc, h2, Nat.mod_mod, pow_succ, ← Nat.div_div_eq_div_mul,
      pow_succ, Nat.mul_comm (256 ^ k) 256, Nat.mod_mul]

theorem readBytes_writeBytes (mem : Nat → Nat) (a n u : Nat) :
    readBytes (writeBytes mem a n u) a n = u % 256 ^ n := by
  have h := readBytes_writeBytes_offset mem a n u n 0 (by omega)
  simpa using h

theorem toNat_emod_pow_lt (x : Int) (n : Nat) :
    (x % 2 ^ (8 * n)).toNat < 256 ^ n := by
  have hpos : (0 : Int) < 2 ^ (8 * n) := by positivity
  have h1 : x % 2 ^ (8 * n) < 2 ^ (8 * n) := Int.emod_lt_of_pos x hpos
  have h2 : 0 ≤ x % 2 ^ (8 * n) := Int.emod_nonneg x (ne_of_gt hpos)
  have h3 : ((x % 2 ^ (8 * n)).toNat : Int) < ((256 ^ n : Nat) : Int) := by
    rw [Int.toNat_of_nonneg h2]
    have : ((256 ^ n : Nat) : Int) = 2 ^ (8 * n) := by
      push_cast
      rw [pow_mul]
      norm_num
    rw [this]
    exact h1
  exact_mod_cast h3

theorem assign_live (heap heap' : Heap) (p n : Nat) (x : Int)
    (h : assign heap p n x = some heap') : heap'.live = heap.live := by
  unfold assign at h
  split at h
  · cases h; rfl
  · cases h

theorem assign_derefUnsigned (heap : Heap) (p n : Nat) (x : Int)
    (hlive : (p, n) ∈ heap.live) :
    ∃ heap', assign heap p n x = some heap' ∧
      derefUnsigned heap' p n = some (x % 2 ^ (8 * n)) := by
  refine ⟨{ heap with mem := writeBytes heap.mem p n (x % 2 ^ (8 * n)).toNat }, ?_, ?_⟩
  · simp [assign, hlive]
  · have hpos : (0 : Int) < 2 ^ (8 * n) := by positivity
    have h2 : 0 ≤ x % 2 ^ (8 * n) := Int.emod_nonneg x (ne_of_gt hpos)
    simp only [derefUnsigned, hlive, if_true, readBytes_writeBytes]
    rw [Nat.mod_eq_of_lt (toNat_emod_pow_lt x n), Int.toNat_of_nonneg h2]

theorem assign_derefSigned (heap : Heap) (p n : Nat) (x : Int)
    (hlive : (p, n) ∈ heap.live) :
    ∃ heap', assign heap p n x = some heap' ∧
      derefSigned heap' p n = some (wrapSigned (8 * n) (x % 2 ^ (8 * n))) := by
  refine ⟨{ heap with mem := writeBytes heap.mem p n (x % 2 ^ (8 * n)).toNat }, ?_, ?_⟩
  · simp [assign, hlive]
  · have hpos : (0 : Int) < 2 ^ (8 * n) := by positivity
    have h2 : 0 ≤ x % 2 ^ (8 * n) := Int.emod_nonneg x (ne_of_gt hpos)
    simp only [derefSigned, hlive, if_true, readBytes_writeBytes]
    rw [Nat.mod_eq_of_lt (toNat_emod_pow_lt x n), Int.toNat_of_nonneg h2]

/-! ## Lemmas on machine integers -/

theorem two_pow_pred (w : Nat) (hw : 0 < w) : (2 : Int) ^ w = 2 * 2 ^ (w - 1) := by
  obtain ⟨k, rfl⟩ : ∃ k, w = k + 1 := ⟨w - 1, by omega⟩
  simp [pow_succ, mul_comm]

theorem wrapSigned_emod (w : Nat) (x : Int) :
    wrapSigned w (x % 2 ^ w) = wrapSigned w x := by
  simp [wrapSigned, Int.emod_emod_of_dvd]

theorem wrapSigned_of_isSigned (w : Nat) (x : Int) (hw : 0 < w) (hx : IsSigned w x) :
    wrapSigned w x = x := by
  unfold IsSigned at hx
  have h2 := two_pow_pred w hw
  have hm : (0 : Int) < 2 ^ (w - 1) := by positivity
  unfold wrapSigned
  rw [h2]
  by_cases hneg : 0 ≤ x
  · have e : x % (2 * 2 ^ (w - 1)) = x := Int.emod_eq_of_lt hneg (by omega)
    rw [e, if_pos hx.2]
  · have e : x % (2 * 2 ^ (w - 1)) = x + 2 * 2 ^ (w - 1) := by
      rw [← Int.add_emod_self]
      exact Int.emod_eq_of_lt (by omega) (by omega)
    rw [e, if_neg (by omega)]
    omega

theorem wrapUnsigned_of_isUnsigned (w : Nat) (x : Int) (hx : IsUnsigned w x) :
    wrapUnsigned w x = x :=
  Int.emod_eq_of_lt hx.1 hx.2

theorem wrapUnsigned_isUnsigned (w : Nat) (x : Int) : IsUnsigned w (wrapUnsigned w x) := by
  have hpos : (0 : Int) < 2 ^ w := by positivity
  exact ⟨Int.emod_nonneg x (ne_of_gt hpos), Int.emod_lt_of_pos x hpos⟩

theorem wrapSigned_isSigned (w : Nat) (x : Int) (hw : 0 < w) : IsSigned w (wrapSigned w x) := by
  have h2 := two_pow_pred w hw
  have hpos : (0 : Int) < 2 ^ w := by positivity
  have h0 := Int.emod_nonneg x (ne_of_gt hpos)
  have h1 := Int.emod_lt_of_pos x hpos
  unfold wrapSigned IsSigned
  split_ifs with h <;> constructor <;> omega

/-- Storing a value of a signed type and reading the cell back through the
signed accessor pair of width `8 * n` returns the value. -/
theorem signed_cell_roundtrip (heap : Heap) (p n : Nat) (v : Int) (hn : 0 < n)
    (hlive : (p, n) ∈ heap.live) (hv : IsSigned (8 * n) v) :
    ∃ heap', assign heap p n (wrapSigned (8 * n) v) = some heap' ∧
      (derefSigned heap' p n).map (wrapSigned (8 * n)) = some v := by
  obtain ⟨heap', h1, h2⟩ := assign_derefSigned heap p n (wrapSigned (8 * n) v) hlive
  refine ⟨heap', h1, ?_⟩
  have hw : 0 < 8 * n := by omega
  rw [h2, Option.map_some', wrapSigned_emod, wrapSigned_of_isSigned _ _ hw hv,
    wrapSigned_of_isSigned _ _ hw hv, wrapSigned_of_isSigned _ _ hw hv]

/-- Storing a signed carrier value in an unsigned cell and reading it back
through the signed carrier returns the value. -/
theorem unsigned_cell_roundtrip (heap : Heap) (p n : Nat) (v : Int) (hn : 0 < n)
    (hlive : (p, n) ∈ heap.live) (hv : IsSigned (8 * n) v) :
    ∃ heap', assign heap p n (wrapUnsigned (8 * n) v) = some heap' ∧
      (derefUnsigned heap' p n).map (wrapSigned (8 * n)) = some v := by
  obtain ⟨heap', h1, h2⟩ := assign_derefUnsigned heap p n (wrapUnsigned (8 * n) v) hlive
  refine ⟨heap', h1, ?_⟩
  have hw : 0 < 8 * n := by omega
  rw [h2, Option.map_some', wrapSigned_emod]
  unfold wrapUnsigned
  rw [wrapSigned_emod, wrapSigned_of_isSigned _ _ hw hv]

/-- Storing a `jchar` in a `std::uint16_t` cell and reading it back returns it. -/
theorem jchar_cell_roundtrip (heap : Heap) (p n : Nat) (v : Int)
    (hlive : (p, n) ∈ heap.live) (hv : IsUnsigned (8 * n) v) :
    ∃ heap', assign heap p n (wrapUnsigned (8 * n) v) = some heap' ∧
      (derefUnsigned heap' p n).map (wrapUnsigned (8 * n)) = some v := by
  obtain ⟨heap', h1, h2⟩ := assign_derefUnsigned heap p n (wrapUnsigned (8 * n) v) hlive
  refine ⟨heap', h1, ?_⟩
  rw [h2, Option.map_some', wrapUnsigned_of_isUnsigned _ _ hv]
  have e : wrapUnsigned (8 * n) (v % 2 ^ (8 * n)) = v := by
    unfold wrapUnsigned
    rw [Int.emod_emod_of_dvd _ (dvd_refl _)]
    exact wrapUnsigned_of_isUnsigned _ _ hv
  rw [e]

/-! ## Lemmas on byte strings -/

theorem set_fold_spec (f : Nat → Int) : ∀ (n : Nat) (init : List Int),
    ((List.range n).foldl (fun result i => result.set i (f i)) init).length = init.length ∧
    ∀ k, ((List.range n).foldl (fun result i => result.set i (f i)) init)[k]? =
      if k < n ∧ k < init.length then some (f k) else init[k]? := by
  intro n
  induction n with
  | zero => intro init; simp
  | succ n ih =>
    intro init
    obtain ⟨hlen, hget⟩ := ih init
    rw [List.range_succ, List.foldl_append, List.foldl_cons, List.foldl_nil]
    refine ⟨by rw [List.length_set, hlen], ?_⟩
    intro k
    rw [List.getElem?_set, hlen, hget]
    by_cases hk : n = k
    · subst hk
      by_cases hl : n < init.length
      · simp [hl]
      · have : init[n]? = none := List.getElem?_eq_none (by omega)
        simp [hl, this]
    · rw [if_neg hk]
      by_cases hl : k < n
      · have : k < n + 1 := by omega
        simp [hl, this]
      · have : ¬ k < n + 1 := by omega
        simp [hl, this]

theorem wrapSigned_jbyte (b : Int) (hb : IsJByte b) : wrapSigned 8 b = b :=
  wrapSigned_of_isSigned 8 b (by decide) hb

theorem toCppString_some (bytes : List Int) (hb : ∀ b ∈ bytes, IsJByte b) :
    toCppString (some bytes) = some bytes := by
  unfold toCppString
  simp only
  congr 1
  obtain ⟨_, hget⟩ := set_fold_spec (fun i => wrapSigned 8 (bytes.getD i 0)) bytes.length
    (List.replicate bytes.length 46)
  apply List.ext_getElem?
  intro k
  rw [hget, List.length_replicate]
  by_cases hk : k < bytes.length
  · have hmem : bytes[k] ∈ bytes := List.getElem_mem hk
    simp [hk, List.getD_eq_getElem?_getD, wrapSigned_jbyte _ (hb _ hmem)]
  · have : bytes[k]? = none := List.getElem?_eq_none (by omega)
    have hle : bytes.length ≤ k := by omega
    simp [hk, this, hle]

theorem firstZeroAt_head (c : Int) (rest : List Int) (h : FirstZeroAt (c :: rest) 0) :
    c = 0 := by
  have := h.1
  simpa using this

theorem firstZeroAt_tail (c : Int) (rest : List Int) (m : Nat)
    (h : FirstZeroAt (c :: rest) (m + 1)) : c ≠ 0 ∧ FirstZeroAt rest m := by
  obtain ⟨h1, h2⟩ := h
  refine ⟨?_, ?_, ?_⟩
  · have := h2 0 (by omega)
    simpa using this
  · simpa using h1
  · intro j hj
    have := h2 (j + 1) (by omega)
    simpa using this

theorem strlen_of_firstZeroAt : ∀ (chars : List Int) (n : Nat),
    FirstZeroAt chars n → strlen chars = some n := by
  intro chars
  induction chars with
  | nil => intro n h; have := h.1; simp at this
  | cons c rest ih =>
    intro n h
    cases n with
    | zero => simp [strlen, firstZeroAt_head c rest h]
    | succ m =>
      obtain ⟨hc, hrest⟩ := firstZeroAt_tail c rest m h
      simp [strlen, hc, ih m hrest]

theorem toJavaStringBytes_loop_spec : ∀ (rest : List Int) (i : Nat) (bb : List Int) (m : Nat),
    FirstZeroAt rest m → i + m ≤ INT_MAX →
    ∃ out, toJavaStringBytes_loop rest i bb = some out ∧ out.length = bb.length ∧
      ∀ k, out[k]? =
        if i ≤ k ∧ k < i + m ∧ k < bb.length then (rest[k - i]?).map (wrapSigned 8)
        else bb[k]? := by
  intro rest
  induction rest with
  | nil => intro i bb m h; have := h.1; simp at this
  | cons c rest ih =>
    intro i bb m h hi
    cases m with
    | zero =>
      refine ⟨bb, by simp [toJavaStringBytes_loop, firstZeroAt_head c rest h], rfl, ?_⟩
      intro k
      have : ¬ (i ≤ k ∧ k < i + 0 ∧ k < bb.length) := by omega
      rw [if_neg this]
    | succ m =>
      obtain ⟨hc, hrest⟩ := firstZeroAt_tail c rest m h
      obtain ⟨out, hout, hlen, hget⟩ :=
        ih (i + 1) (bb.set i (wrapSigned 8 c)) m hrest (by omega)
      have hi1 : i + 1 ≤ INT_MAX := by omega
      refine ⟨out, by simp [toJavaStringBytes_loop, hc, hi1, hout],
        by rw [hlen, List.length_set], ?_⟩
      intro k
      rw [hget, List.length_set, List.getElem?_set]
      by_cases hk : i = k
      · subst hk
        have h1 : ¬ (i + 1 ≤ i ∧ i < i + 1 + m ∧ i < bb.length) := by omega
        rw [if_neg h1]
        by_cases hl : i < bb.length
        · have h2 : i ≤ i ∧ i < i + (m + 1) ∧ i < bb.length := ⟨by omega, by omega, hl⟩
          simp [hl, h2]
        · have h2 : ¬ (i ≤ i ∧ i < i + (m + 1) ∧ i < bb.length) := by omega
          have : bb[i]? = none := List.getElem?_eq_none (by omega)
          simp [hl, this]
      · rw [if_neg hk]
        by_cases hin : i + 1 ≤ k ∧ k < i + 1 + m ∧ k < bb.length
        · have h2 : i ≤ k ∧ k < i + (m + 1) ∧ k < bb.length := by omega
          rw [if_pos hin, if_pos h2]
          obtain ⟨j, rfl⟩ : ∃ j, k = i + 1 + j := ⟨k - (i + 1), by omega⟩
          have e1 : i + 1 + j - (i + 1) = j := by omega
          have e2 : i + 1 + j - i = j + 1 := by omega
          rw [e1, e2, List.getElem?_cons_succ]
        · have h2 : ¬ (i ≤ k ∧ k < i + (m + 1) ∧ k < bb.length) := by omega
          rw [if_neg hin, if_neg h2]

theorem wrapSigned32_of_le (n : Nat) (hn : n ≤ INT_MAX) : wrapSigned 32 (n : Int) = n := by
  apply wrapSigned_of_isSigned 32 _ (by decide)
  unfold INT_MAX at hn
  unfold IsSigned
  norm_num
  omega

theorem toJavaStringBytes_spec (buffer : CString) (deleteString : Bool) (n : Nat)
    (hz : FirstZeroAt buffer.chars n) (hn : n ≤ INT_MAX)
    (hd : deleteString = true → buffer.fromNewArray = true) :
    toJavaStringBytes (some buffer) deleteString =
      some { charactersArray := some ((buffer.chars.take n).map (wrapSigned 8)),
             deleted := deleteString } := by
  obtain ⟨out, hout, hlen, hget⟩ :=
    toJavaStringBytes_loop_spec buffer.chars 0 (List.replicate n 0) n hz (by omega)
  have hlen2 : out.length = n := by rw [hlen, List.length_replicate]
  have hout_eq : out = (buffer.chars.take n).map (wrapSigned 8) := by
    apply List.ext_getElem?
    intro k
    rw [hget, List.length_replicate, List.getElem?_map, List.getElem?_take]
    by_cases hk : k < n
    · have h2 : 0 ≤ k ∧ k < 0 + n ∧ k < n := by omega
      simp [hk, h2]
    · have h2 : ¬ (0 ≤ k ∧ k < 0 + n ∧ k < n) := by omega
      have : (List.replicate n (0 : Int))[k]? = none :=
        List.getElem?_eq_none (by rw [List.length_replicate]; omega)
      simp [hk, h2, this]
  have hcopy : SetByteArrayRegion (List.replicate n 0) 0 n out = out := by
    unfold SetByteArrayRegion
    rw [List.take_zero, List.nil_append, Nat.zero_add,
      List.drop_of_length_le (by rw [List.length_replicate]), List.append_nil,
      List.take_of_length_le (by omega)]
  have h32 := wrapSigned32_of_le n hn
  unfold toJavaStringBytes
  simp only [strlen_of_firstZeroAt _ _ hz, hout, h32]
  have hnn : ¬ ((n : Int) < 0) := by omega
  rw [if_neg hnn, Int.toNat_ofNat, hcopy, hout_eq]
  cases deleteString with
  | false => simp
  | true => simp [hd rfl]

theorem map_wrapSigned_jbyte (chars : List Int) (h : ∀ c ∈ chars, IsJByte c) :
    chars.map (wrapSigned 8) = chars := by
  induction chars with
  | nil => rfl
  | cons c rest ih =>
    rw [List.map_cons, wrapSigned_jbyte c (h c (List.mem_cons_self c rest)),
      ih (fun x hx => h x (List.mem_cons_of_mem c hx))]

theorem firstZeroAt_lt_length (chars : List Int) (n : Nat) (h : FirstZeroAt chars n) :
    n < chars.length := by
  obtain ⟨hlt, _⟩ := List.getElem?_eq_some_iff.mp h.1
  exact hlt

theorem firstZeroAt_append_terminator (bytes : List Int) (h : ∀ b ∈ bytes, b ≠ 0) :
    FirstZeroAt (bytes ++ [0]) bytes.length := by
  refine ⟨by simp, ?_⟩
  intro j hj hzero
  rw [List.getElem?_append_left hj] at hzero
  obtain ⟨hlt, hval⟩ := List.getElem?_eq_some_iff.mp hzero
  exact h _ (List.getElem_mem hlt) hval

theorem firstZeroAt_append (bytes tail : List Int) (i : Nat) (h : FirstZeroAt bytes i) :
    FirstZeroAt (bytes ++ tail) i := by
  have hi := firstZeroAt_lt_length bytes i h
  refine ⟨by rw [List.getElem?_append_left hi]; exact h.1, ?_⟩
  intro j hj
  rw [List.getElem?_append_left (by omega)]
  exact h.2 j hj

theorem firstZeroAt_replicate (N : Nat) : FirstZeroAt (List.replicate N 1 ++ [0]) N := by
  refine ⟨?_, ?_⟩
  · rw [List.getElem?_append_right (by rw [List.length_replicate]), List.length_replicate,
      Nat.sub_self]
    rfl
  · intro j hj
    rw [List.getElem?_append_left (by rw [List.length_replicate]; exact hj),
      List.getElem?_replicate, if_pos hj]
    intro hcontra
    cases hcontra

theorem toJavaStringBytes_loop_overflow : ∀ (N i : Nat) (bb : List Int),
    i ≤ INT_MAX → INT_MAX < i + N →
    toJavaStringBytes_loop (List.replicate N 1 ++ [0]) i bb = none := by
  intro N
  induction N with
  | zero => intro i bb h1 h2; omega
  | succ N ih =>
    intro i bb h1 h2
    rw [List.replicate_succ, List.cons_append, toJavaStringBytes_loop,
      if_neg (by decide : ¬ ((1 : Int) = 0))]
    by_cases hi : i + 1 ≤ INT_MAX
    · rw [if_pos hi]
      exact ih (i + 1) _ hi (by omega)
    · rw [if_neg hi]

theorem toJavaStringBytes_overflow (N : Nat) (own del : Bool) (hN : INT_MAX < N) :
    toJavaStringBytes (some { chars := List.replicate N 1 ++ [0], fromNewArray := own }) del
      = none := by
  unfold toJavaStringBytes
  simp only [strlen_of_firstZeroAt _ _ (firstZeroAt_replicate N)]
  rw [toJavaStringBytes_loop_overflow N 0 _ (Nat.zero_le _) (by omega)]

/-! ## Lemmas on the handle cache -/

theorem cacheInv_start {σ : Type} (host : σ) : CacheInv (Process.start host) := by
  constructor
  · intro s; simp [Process.start]
  · intro s h; simp [Process.start] at h

theorem needs_self (s : Slot) : s.needs s = true := by
  simp [Slot.needs]

theorem needs_class (s : Slot) : s.needs (Slot.cachedClass s.className) = true := by
  simp [Slot.needs]

theorem needs_iff (called target : Slot) :
    called.needs target = true ↔
      target = called ∨ target = Slot.cachedClass called.className := by
  simp [Slot.needs]

theorem count_append_singleton (l : List Slot) (a s : Slot) :
    (l ++ [a]).count s = l.count s + if a = s then 1 else 0 := by
  rw [List.count_append]
  by_cases h : a = s
  · subst h; simp
  · have h2 : ¬ s = a := fun e => h e.symm
    simp [h, List.count_cons, h2]

theorem getCachedClass_step {σ : Type} (jni : HostRuntime σ) (C : String) (env : Nat)
    (p : Process σ) (hinv : CacheInv p) :
    StepSpec (Slot.cachedClass C) p (getCachedClass jni C env p) := by
  unfold getCachedClass
  cases h : p.statics (Slot.cachedClass C) with
  | some value =>
    refine ⟨hinv, h, fun s v hs => hs, ?_, ?_⟩
    · intro s
      by_cases hn : (Slot.cachedClass C).needs s = true
      · have hs : s = Slot.cachedClass C := by
          rcases (needs_iff _ _).mp hn with e | e
          · exact e
          · exact e
        subst hs
        simp [h, hn]
      · simp [hn]
    · intro v hv
      rw [h] at hv
      cases hv
      rfl
  | none =>
    refine ⟨⟨?_, ?_⟩, ?_, ?_, ?_, ?_⟩
    · intro s
      simp only
      rw [count_append_singleton, hinv.1 s]
      by_cases hs : Slot.cachedClass C = s
      · subst hs
        simp [h]
      · have hs2 : s ≠ Slot.cachedClass C := fun e => hs e.symm
        simp [hs, Function.update_noteq hs2]
    · intro s hs
      simp only at hs ⊢
      by_cases hc : Slot.cachedClass s.className = Slot.cachedClass C
      · rw [hc]; simp
      · rw [Function.update_noteq hc]
        by_cases hs2 : s = Slot.cachedClass C
        · subst hs2
          exact absurd rfl hc
        · rw [Function.update_noteq hs2] at hs
          exact hinv.2 s hs
    · simp
    · intro s v hs
      simp only
      by_cases hs2 : s = Slot.cachedClass C
      · subst hs2
        rw [h] at hs
        cases hs
      · rw [Function.update_noteq hs2]
        exact hs
    · intro s
      simp only
      by_cases hs2 : s = Slot.cachedClass C
      · subst hs2
        simp [needs_self]
      · rw [Function.update_noteq hs2]
        have hn : (Slot.cachedClass C).needs s = false := by
          simp [Slot.needs, hs2, Slot.className]
        simp [hn]
    · intro v hv
      rw [h] at hv
      cases hv

theorem cachedMember_step {σ : Type} (jni : HostRuntime σ)
    (lookup : σ → Nat → Nat → String → String → Nat × σ) (slot : Slot)
    (Name Signature : String) (env : Nat) (p : Process σ)
    (hmember : ∀ C, slot ≠ Slot.cachedClass C) (hinv : CacheInv p) :
    StepSpec slot p (cachedMember jni lookup slot Name Signature env p) := by
  unfold cachedMember
  cases h : p.statics slot with
  | some value =>
    refine ⟨hinv, h, fun s v hs => hs, ?_, ?_⟩
    · intro s
      by_cases hn : slot.needs s = true
      · have hs : (p.statics s).isSome = true := by
          rcases (needs_iff _ _).mp hn with e | e
          · rw [e, h]; rfl
          · rw [e]; exact hinv.2 slot (by rw [h]; rfl)
        simp [hs, hn]
      · simp [hn]
    · intro v hv
      rw [h] at hv
      cases hv
      rfl
  | none =>
    obtain ⟨inv1, st1, mono1, some1, _⟩ := getCachedClass_step jni slot.className env p hinv
    have hneeds : ∀ s, s ≠ slot →
        slot.needs s = (Slot.cachedClass slot.className).needs s := by
      intro s hs
      simp [Slot.needs, hs, Slot.className]
    have hfree : (getCachedClass jni slot.className env p).2.statics slot = none := by
      have e := some1 slot
      have hn : (Slot.cachedClass slot.className).needs slot = false := by
        simp [Slot.needs, hmember, Slot.className]
      rw [h, hn] at e
      simpa using e
    refine ⟨⟨?_, ?_⟩, ?_, ?_, ?_, ?_⟩
    · intro s
      simp only
      rw [count_append_singleton, inv1.1 s]
      by_cases hs : slot = s
      · subst hs
        simp [hfree]
      · have hs2 : s ≠ slot := fun e => hs e.symm
        simp [hs, Function.update_noteq hs2]
    · intro s hs
      simp only at hs ⊢
      rw [Function.update_noteq (fun e => hmember _ e.symm)]
      by_cases hs2 : s = slot
      · subst hs2
        rw [st1]; rfl
      · rw [Function.update_noteq hs2] at hs
        exact inv1.2 s hs
    · simp
    · intro s v hs
      simp only
      by_cases hs2 : s = slot
      · subst hs2
        rw [h] at hs
        cases hs
      · rw [Function.update_noteq hs2]
        exact mono1 s v hs
    · intro s
      simp only
      by_cases hs2 : s = slot
      · subst hs2
        simp [needs_self]
      · rw [Function.update_noteq hs2, some1 s, hneeds s hs2]
    · intro v hv
      rw [h] at hv
      cases hv

theorem resolve_step {σ : Type} (jni : HostRuntime σ) (c : Call) (p : Process σ)
    (hinv : CacheInv p) : StepSpec c.slot p (resolve jni c p) := by
  obtain ⟨env, slot⟩ := c
  cases slot with
  | cachedClass C => exact getCachedClass_step jni C env p hinv
  | cachedField C F S =>
    exact cachedMember_step jni jni.GetFieldID (Slot.cachedField C F S) F S env p
      (fun _ e => by cases e) hinv
  | cachedMethod C M S =>
    exact cachedMember_step jni jni.GetMethodID (Slot.cachedMethod C M S) M S env p
      (fun _ e => by cases e) hinv
  | cachedStaticMethod C M S =>
    exact cachedMember_step jni jni.GetStaticMethodID (Slot.cachedStaticMethod C M S) M S env p
      (fun _ e => by cases e) hinv

theorem resolveAll_inv {σ : Type} (jni : HostRuntime σ) : ∀ (cs : List Call) (p : Process σ),
    CacheInv p → CacheInv (resolveAll jni cs p).2 := by
  intro cs
  induction cs with
  | nil => intro p h; exact h
  | cons c cs ih =>
    intro p h
    exact ih _ (resolve_step jni c p h).1

theorem resolveAll_mono {σ : Type} (jni : HostRuntime σ) : ∀ (cs : List Call) (p : Process σ),
    CacheInv p → ∀ s v, p.statics s = some v → (resolveAll jni cs p).2.statics s = some v := by
  intro cs
  induction cs with
  | nil => intro p _ s v hs; exact hs
  | cons c cs ih =>
    intro p h s v hs
    obtain ⟨inv1, _, mono1, _, _⟩ := resolve_step jni c p h
    exact ih _ inv1 s v (mono1 s v hs)

theorem resolveAll_isSome {σ : Type} (jni : HostRuntime σ) :
    ∀ (cs : List Call) (p : Process σ), CacheInv p → ∀ s,
      ((resolveAll jni cs p).2.statics s).isSome =
        ((p.statics s).isSome || cs.any (fun c => c.slot.needs s)) := by
  intro cs
  induction cs with
  | nil => intro p _ s; simp [resolveAll]
  | cons c cs ih =>
    intro p h s
    obtain ⟨inv1, _, _, some1, _⟩ := resolve_step jni c p h
    show ((resolveAll jni cs (resolve jni c p).2).2.statics s).isSome = _
    rw [ih _ inv1 s, some1 s, List.any_cons, Bool.or_assoc]

theorem resolveAll_cons {σ : Type} (jni : HostRuntime σ) (c : Call) (cs : List Call)
    (p : Process σ) :
    resolveAll jni (c :: cs) p =
      ((resolve jni c p).1 :: (resolveAll jni cs (resolve jni c p).2).1,
        (resolveAll jni cs (resolve jni c p).2).2) := rfl

theorem resolveAll_values {σ : Type} (jni : HostRuntime σ) :
    ∀ (cs : List Call) (p : Process σ), CacheInv p → ∀ (i : Nat) (c : Call),
      cs[i]? = some c →
      ∃ v, (resolveAll jni cs p).1[i]? = some v ∧
        (resolveAll jni cs p).2.statics c.slot = some v := by
  intro cs
  induction cs with
  | nil => intro p _ i c hc; simp at hc
  | cons d cs ih =>
    intro p h i c hc
    obtain ⟨inv1, st1, _, _, _⟩ := resolve_step jni d p h
    cases i with
    | zero =>
      simp only [List.getElem?_cons_zero, Option.some.injEq] at hc
      subst hc
      rw [resolveAll_cons]
      exact ⟨(resolve jni d p).1, by simp, resolveAll_mono jni cs _ inv1 _ _ st1⟩
    | succ i =>
      simp only [List.getElem?_cons_succ] at hc
      obtain ⟨v, h1, h2⟩ := ih _ inv1 i c hc
      rw [resolveAll_cons]
      refine ⟨v, ?_, h2⟩
      simp only [List.getElem?_cons_succ]
      exact h1

theorem resolveAll_count {σ : Type} (jni : HostRuntime σ) (host : σ) (cs : List Call)
    (s : Slot) :
    (resolveAll jni cs (Process.start host)).2.lookups.count s =
      if cs.any (fun c => c.slot.needs s) then 1 else 0 := by
  have hinv := resolveAll_inv jni cs _ (cacheInv_start host)
  rw [hinv.1 s, resolveAll_isSome jni cs _ (cacheInv_start host) s]
  simp [Process.start]

theorem resolveAll_append {σ : Type} (jni : HostRuntime σ) :
    ∀ (cs ds : List Call) (p : Process σ),
      resolveAll jni (cs ++ ds) p =
        ((resolveAll jni cs p).1 ++ (resolveAll jni ds (resolveAll jni cs p).2).1,
          (resolveAll jni ds (resolveAll jni cs p).2).2) := by
  intro cs
  induction cs with
  | nil => intro ds p; simp [resolveAll]
  | cons c cs ih =>
    intro ds p
    show resolveAll jni (c :: (cs ++ ds)) p = _
    simp only [resolveAll, ih, List.cons_append]

/-- End-to-end scenario on an int32 cell: allocated at address 4096, set to
`-7`, it reads back as `-7`; once destroyed, a read is no longer defined. -/
theorem int32_allocate_set_get_destroy :
    ((Java_com_github_novelrt_fumocement_builtin_Int32Pointer_setValue
        (Java_com_github_novelrt_fumocement_builtin_Int32Pointer_allocatePointer
          { mem := fun _ => 0, live := [] } 4096).2 4096 (-7)).bind
      (fun heap => Java_com_github_novelrt_fumocement_builtin_Int32Pointer_getValue heap 4096))
      = some (-7) ∧
    (((Java_com_github_novelrt_fumocement_builtin_Int32Pointer_setValue
        (Java_com_github_novelrt_fumocement_builtin_Int32Pointer_allocatePointer
          { mem := fun _ => 0, live := [] } 4096).2 4096 (-7)).bind
      (fun heap =>
        Java_com_github_novelrt_fumocement_builtin_Int32Pointer_destroyPointer heap 4096)).bind
      (fun heap => Java_com_github_novelrt_fumocement_builtin_Int32Pointer_getValue heap 4096))
      = none := by
  refine ⟨by decide, by decide⟩

/-! ## Properties of the specification -/

/-- C2: byte-string round trip. For every host byte array `bytes`, converting it
with `toCppString`, passing the result through `passAsC` and converting back
with `toJavaStringBytes` (without deletion, the buffer being the string's own)
yields exactly `bytes` when it contains no zero byte, and exactly its first `i`
bytes when its first zero byte is at position `i`. -/
theorem byte_string_roundtrip (bytes : List Int) (hb : IsJByteArray bytes) :
    ((∀ b ∈ bytes, b ≠ 0) →
      toJavaStringBytes (passAsC (toCppString (some bytes))) false =
        some { charactersArray := some bytes, deleted := false }) ∧
    (∀ i, FirstZeroAt bytes i →
      toJavaStringBytes (passAsC (toCppString (some bytes))) false =
        some { charactersArray := some (bytes.take i), deleted := false }) := by
  obtain ⟨hlen, hrange⟩ := hb
  have hcpp := toCppString_some bytes hrange
  have hrange2 : ∀ c ∈ bytes ++ [0], IsJByte c := by
    intro c hc
    rcases List.mem_append.mp hc with h | h
    · exact hrange c h
    · rw [List.mem_singleton.mp h]; decide
  constructor
  · intro hnz
    rw [hcpp, passAsC]
    rw [toJavaStringBytes_spec _ false bytes.length (firstZeroAt_append_terminator bytes hnz)
      hlen (by intro h; cases h)]
    simp only [List.take_left']
    rw [map_wrapSigned_jbyte bytes hrange]
  · intro i hz
    have hi := firstZeroAt_lt_length bytes i hz
    rw [hcpp, passAsC]
    rw [toJavaStringBytes_spec _ false i (firstZeroAt_append bytes [0] i hz)
      (by omega) (by intro h; cases h)]
    simp only
    rw [List.take_append_of_le_length (by omega),
      map_wrapSigned_jbyte _ (fun c hc => hrange c (List.mem_of_mem_take hc))]

/-- Witness of C2: the bytes of "Hey\0!" come back as "Hey", and the bytes of
"Hey" come back unchanged. -/
theorem byte_string_roundtrip_witness :
    IsJByteArray [72, 101, 121, 0, 33] ∧ FirstZeroAt [72, 101, 121, 0, 33] 3 ∧
      toJavaStringBytes (passAsC (toCppString (some [72, 101, 121, 0, 33]))) false =
        some { charactersArray := some [72, 101, 121], deleted := false } :=
  ⟨by decide, by decide, (byte_string_roundtrip [72, 101, 121, 0, 33] (by decide)).2 3 (by decide)⟩

/-- C4 (as the code has it): a null buffer yields a null result; for every
non-null buffer whose first zero byte is at index `n`, with `n` at most
`INT_MAX` (and, when `deleteString` is set, a buffer that came from `new[]`),
the produced byte array has length exactly `n` and its `k`-th byte equals the
buffer's `k`-th byte for every `k < n`. -/
theorem toJavaStringBytes_scans_to_first_zero (buffer : CString) (deleteString : Bool)
    (n : Nat) (hchars : ∀ c ∈ buffer.chars, IsJByte c) (hz : FirstZeroAt buffer.chars n)
    (hn : n ≤ INT_MAX) (hd : deleteString = true → buffer.fromNewArray = true) :
    toJavaStringBytes none deleteString = some { charactersArray := none, deleted := false } ∧
    ∃ arr, toJavaStringBytes (some buffer) deleteString =
        some { charactersArray := some arr, deleted := deleteString } ∧
      arr.length = n ∧ ∀ k, k < n → arr[k]? = buffer.chars[k]? := by
  have hlt := firstZeroAt_lt_length buffer.chars n hz
  refine ⟨rfl, buffer.chars.take n, ?_, ?_, ?_⟩
  · rw [toJavaStringBytes_spec buffer deleteString n hz hn hd,
      map_wrapSigned_jbyte _ (fun c hc => hchars c (List.mem_of_mem_take hc))]
  · rw [List.length_take]
    omega
  · intro k hk
    rw [List.getElem?_take, if_pos hk]

/-- Witness of C4 as amended: the buffer "Hey\0!", owned and deleted by the
call, produces exactly the bytes of "Hey". -/
theorem toJavaStringBytes_scans_to_first_zero_witness :
    FirstZeroAt [72, 101, 121, 0, 33] 3 ∧
      toJavaStringBytes (some { chars := [72, 101, 121, 0, 33], fromNewArray := true }) true =
        some { charactersArray := some [72, 101, 121], deleted := true } ∧
      ∃ arr, toJavaStringBytes (some { chars := [72, 101, 121, 0, 33], fromNewArray := true })
          true = some { charactersArray := some arr, deleted := true } ∧
        arr.length = 3 ∧ ∀ k, k < 3 → arr[k]? = [72, 101, 121, 0, 33][k]? :=
  ⟨by decide, by decide,
    (toJavaStringBytes_scans_to_first_zero
      { chars := [72, 101, 121, 0, 33], fromNewArray := true } true 3
      (by decide) (by decide) (by decide) (fun _ => rfl)).2⟩

/-- Counterexample to C4 as stated: for the buffer of `INT_MAX + 1` characters
`1` followed by a zero, whose first zero byte is at index `INT_MAX + 1`, the
loop counter of type `int` overflows and no byte array of that length is
produced. -/
theorem toJavaStringBytes_long_buffer_undefined :
    FirstZeroAt longBuffer.chars (INT_MAX + 1) ∧
      toJavaStringBytes (some longBuffer) false = none ∧
      toJavaStringBytes (some longBuffer) true = none :=
  ⟨firstZeroAt_replicate (INT_MAX + 1),
    toJavaStringBytes_overflow (INT_MAX + 1) true false (Nat.lt_succ_self _),
    toJavaStringBytes_overflow (INT_MAX + 1) true true (Nat.lt_succ_self _)⟩

/-- C5: `toCppString` gives an absent result for a null byte array; for every
non-null byte array of length `N` the result is present, has length exactly `N`
and its `k`-th byte equals the array's `k`-th byte for every `k < N`, embedded
zero bytes included. -/
theorem toCppString_copies_every_byte (bytes : List Int) (hb : IsJByteArray bytes) :
    toCppString none = none ∧
    ∃ result, toCppString (some bytes) = some result ∧ result.length = bytes.length ∧
      ∀ k, k < bytes.length → result[k]? = bytes[k]? :=
  ⟨rfl, bytes, toCppString_some bytes hb.2, rfl, fun _ _ => rfl⟩

/-- Witness of C5: the bytes of "Hey\0!" are copied whole, the zero included. -/
theorem toCppString_copies_every_byte_witness :
    IsJByteArray [72, 101, 121, 0, 33] ∧
      toCppString (some [72, 101, 121, 0, 33]) = some [72, 101, 121, 0, 33] ∧
      ∃ result, toCppString (some [72, 101, 121, 0, 33]) = some result ∧
        result.length = [72, 101, 121, 0, 33].length ∧
        ∀ k, k < [72, 101, 121, 0, 33].length → result[k]? = [72, 101, 121, 0, 33][k]? :=
  ⟨by decide, by decide, (toCppString_copies_every_byte [72, 101, 121, 0, 33] (by decide)).2⟩



/-- C1: for each of the eight integer kinds, for every live cell handle `h` and
every value `v` of the kind's host carrier type, the kind's set accessor
succeeds and a following get accessor on the same handle returns exactly `v`. -/
theorem set_then_get_returns_value (k : Kind) (heap : Heap) (h v : Int)
    (hlive : LiveCell heap h k.size) (hv : k.Carrier v) :
    ∃ heap', k.set heap h v = some heap' ∧ k.get heap' h = some v := by
  cases k
  · exact signed_cell_roundtrip heap (toNativePointer h) 1 v (by decide) hlive hv
  · exact signed_cell_roundtrip heap (toNativePointer h) 2 v (by decide) hlive hv
  · exact signed_cell_roundtrip heap (toNativePointer h) 4 v (by decide) hlive hv
  · exact signed_cell_roundtrip heap (toNativePointer h) 8 v (by decide) hlive hv
  · exact unsigned_cell_roundtrip heap (toNativePointer h) 1 v (by decide) hlive hv
  · exact jchar_cell_roundtrip heap (toNativePointer h) 2 v hlive hv
  · exact unsigned_cell_roundtrip heap (toNativePointer h) 4 v (by decide) hlive hv
  · exact unsigned_cell_roundtrip heap (toNativePointer h) 8 v (by decide) hlive hv

/-- Witness of C1: an int32 cell at address 4096, set to -7, reads back as -7. -/
theorem set_then_get_returns_value_witness :
    LiveCell (Heap.single 4096 4) 4096 Kind.int32.size ∧ Kind.int32.Carrier (-7) ∧
      ∃ heap', Kind.int32.set (Heap.single 4096 4) 4096 (-7) = some heap' ∧
        Kind.int32.get heap' 4096 = some (-7) :=
  ⟨by decide, by decide,
    set_then_get_returns_value Kind.int32 (Heap.single 4096 4) 4096 (-7) (by decide) (by decide)⟩

theorem toNativePointer_toJavaPointer (p : Nat) (hp : p < 2 ^ 64) :
    toNativePointer (toJavaPointer p) = p := by
  simp only [toNativePointer, toJavaPointer, wrapSigned, wrapUnsigned]
  norm_num at hp ⊢
  split_ifs <;> omega

theorem toJavaPointer_toNativePointer (h : Int) (hh : IsJLong h) :
    toJavaPointer (toNativePointer h) = h := by
  have hpos : (0 : Int) < 2 ^ 64 := by positivity
  have h0 : 0 ≤ wrapUnsigned 64 h := Int.emod_nonneg h (ne_of_gt hpos)
  unfold toJavaPointer toNativePointer
  rw [Int.toNat_of_nonneg h0]
  unfold wrapUnsigned
  rw [wrapSigned_emod]
  exact wrapSigned_of_isSigned 64 h (by decide) hh

/-- C3: opaque handles round-trip without alteration. For every native
address `p` (below `2^64`), `toNativePointer (toJavaPointer p) = p`, and for
every 64-bit signed handle `h`, `toJavaPointer (toNativePointer h) = h`. -/
theorem pointer_handle_roundtrip (p : Nat) (h : Int) (hp : p < 2 ^ 64) (hh : IsJLong h) :
    toNativePointer (toJavaPointer p) = p ∧ toJavaPointer (toNativePointer h) = h :=
  ⟨toNativePointer_toJavaPointer p hp, toJavaPointer_toNativePointer h hh⟩

/-- Witness of C3: the address `2^63 + 5` travels as a negative `jlong` and
comes back unchanged, and the handle `-1` comes back unchanged. -/
theorem pointer_handle_roundtrip_witness :
    toJavaPointer (2 ^ 63 + 5) = -(2 ^ 63) + 5 ∧
      toNativePointer (toJavaPointer (2 ^ 63 + 5)) = 2 ^ 63 + 5 ∧
      toJavaPointer (toNativePointer (-1)) = -1 :=
  ⟨by decide,
    (pointer_handle_roundtrip (2 ^ 63 + 5) (-1) (by decide) (by decide)).1,
    (pointer_handle_roundtrip (2 ^ 63 + 5) (-1) (by decide) (by decide)).2⟩

/-- C6: for every live indirected cell handle `h` and every encoded address
`innerAddr` (any `jlong`, zero included), `setNativeUnderlyingHandle` succeeds
and a following `getNativeUnderlyingHandle` on `h` returns `innerAddr`. -/
theorem indirected_set_then_get (heap : Heap) (h innerAddr : Int)
    (hlive : LiveCell heap h 8) (hin : IsJLong innerAddr) :
    ∃ heap',
      Java_com_github_novelrt_fumocement_IndirectedPointer_setNativeUnderlyingHandle
        heap h innerAddr = some heap' ∧
      Java_com_github_novelrt_fumocement_IndirectedPointer_getNativeUnderlyingHandle
        heap' h = some innerAddr := by
  obtain ⟨heap', h1, h2⟩ :=
    assign_derefUnsigned heap (toNativePointer h) 8 (toNativePointer innerAddr) hlive
  refine ⟨heap', h1, ?_⟩
  have hpos : (0 : Int) < 2 ^ 64 := by positivity
  have h0 : 0 ≤ wrapUnsigned 64 innerAddr := Int.emod_nonneg innerAddr (ne_of_gt hpos)
  have e : ((toNativePointer innerAddr : Nat) : Int) % 2 ^ (8 * 8) = wrapUnsigned 64 innerAddr := by
    unfold toNativePointer
    rw [Int.toNat_of_nonneg h0]
    unfold wrapUnsigned
    exact Int.emod_emod_of_dvd _ (dvd_refl _)
  unfold Java_com_github_novelrt_fumocement_IndirectedPointer_getNativeUnderlyingHandle
  rw [h2, Option.map_some', e]
  exact congrArg some (toJavaPointer_toNativePointer innerAddr hin)

/-- Witness of C6: storing the null address 0 in the indirected cell at
address 4096 and reading it back gives 0. -/
theorem indirected_set_then_get_witness :
    ∃ heap',
      Java_com_github_novelrt_fumocement_IndirectedPointer_setNativeUnderlyingHandle
        (Heap.single 4096 8) 4096 0 = some heap' ∧
      Java_com_github_novelrt_fumocement_IndirectedPointer_getNativeUnderlyingHandle
        heap' 4096 = some 0 :=
  indirected_set_then_get (Heap.single 4096 8) 4096 0 (by decide) (by decide)

theorem readBytes_lt (mem : Nat → Nat) : ∀ n a, readBytes mem a n < 256 ^ n := by
  intro n
  induction n with
  | zero => intro a; simp [readBytes]
  | succ n ih =>
    intro a
    have h1 := ih (a + 1)
    have h2 : mem a % 256 < 256 := Nat.mod_lt _ (by decide)
    rw [readBytes, pow_succ]
    omega

theorem derefUnsigned_isUnsigned (heap : Heap) (p n : Nat) (u : Int)
    (h : derefUnsigned heap p n = some u) : IsUnsigned (8 * n) u := by
  unfold derefUnsigned at h
  split at h
  · cases h
    have hlt := readBytes_lt heap.mem n p
    have e : ((256 ^ n : Nat) : Int) = 2 ^ (8 * n) := by
      push_cast
      rw [pow_mul]
      norm_num
    refine ⟨by positivity, ?_⟩
    rw [← e]
    exact_mod_cast hlt
  · cases h

theorem wrapSigned_of_isUnsigned (w : Nat) (u : Int) (hu : IsUnsigned w u) :
    wrapSigned w u = if u < 2 ^ (w - 1) then u else u - 2 ^ w := by
  unfold wrapSigned
  rw [Int.emod_eq_of_lt hu.1 hu.2]

/-- C10 (as the code has it): a cell holding the unsigned value `u` reads,
through `getUnsignedValue`, as `u` when `u < 2^(w-1)` and as `u - 2^w`
otherwise for the 8-, 32- and 64-bit unsigned kinds, a value of the signed
carrier of the same width; the 16-bit unsigned kind is carried in the unsigned
`jchar` and reads as `u` itself. -/
theorem unsigned_get_carrier (k : Kind) (heap : Heap) (h u : Int)
    (hcell : derefUnsigned heap (toNativePointer h) k.size = some u) :
    (k = Kind.uint8 ∨ k = Kind.uint32 ∨ k = Kind.uint64 →
      k.get heap h = some (if u < 2 ^ (k.bits - 1) then u else u - 2 ^ k.bits) ∧
      IsSigned k.bits (if u < 2 ^ (k.bits - 1) then u else u - 2 ^ k.bits)) ∧
    (k = Kind.uint16 → k.get heap h = some u ∧ IsJChar u) := by
  have hu := derefUnsigned_isUnsigned heap _ _ u hcell
  refine ⟨?_, ?_⟩
  · intro hk
    have key : ∀ n, 0 < n → derefUnsigned heap (toNativePointer h) n = some u →
        (derefUnsigned heap (toNativePointer h) n).map (wrapSigned (8 * n)) =
          some (if u < 2 ^ (8 * n - 1) then u else u - 2 ^ (8 * n)) ∧
        IsSigned (8 * n) (if u < 2 ^ (8 * n - 1) then u else u - 2 ^ (8 * n)) := by
      intro n hn hc
      have hun := derefUnsigned_isUnsigned heap _ _ u hc
      have e := wrapSigned_of_isUnsigned (8 * n) u hun
      refine ⟨by rw [hc, Option.map_some', e], ?_⟩
      rw [← e]
      exact wrapSigned_isSigned _ _ (by omega)
    rcases hk with rfl | rfl | rfl
    · exact key 1 (by decide) hcell
    · exact key 4 (by decide) hcell
    · exact key 8 (by decide) hcell
  · rintro rfl
    refine ⟨?_, hu⟩
    have hcell2 : derefUnsigned heap (toNativePointer h) 2 = some u := hcell
    show (derefUnsigned heap (toNativePointer h) 2).map (wrapUnsigned 16) = some u
    rw [hcell2, Option.map_some']
    exact congrArg some (wrapUnsigned_of_isUnsigned 16 u hu)

/-- Witness of C10 as amended: a uint8 cell holding 255 reads as -1. -/
theorem unsigned_get_carrier_witness :
    derefUnsigned (Heap.allOnes 4096 1) (toNativePointer 4096) Kind.uint8.size = some 255 ∧
      Kind.uint8.get (Heap.allOnes 4096 1) 4096 = some (-1) :=
  ⟨by decide,
    ((unsigned_get_carrier Kind.uint8 (Heap.allOnes 4096 1) 4096 255 (by decide)).1
      (Or.inl rfl)).1⟩

/-- Counterexample to C10 as stated: a uint16 cell holding `65535` is not read
as `65535 - 2^16 = -1`; `getUnsignedValue` returns `65535`, which is above the
signed 16-bit maximum. -/
theorem uint16_get_above_signed_max :
    derefUnsigned (Heap.allOnes 4096 2) (toNativePointer 4096) Kind.uint16.size = some 65535 ∧
      ¬ ((65535 : Int) < 2 ^ (16 - 1)) ∧
      Java_com_github_novelrt_fumocement_builtin_UInt16Pointer_getUnsignedValue
        (Heap.allOnes 4096 2) 4096 = some 65535 ∧
      Java_com_github_novelrt_fumocement_builtin_UInt16Pointer_getUnsignedValue
        (Heap.allOnes 4096 2) 4096 ≠ some (65535 - 2 ^ 16) ∧
      ¬ IsSigned 16 65535 := by
  refine ⟨by decide, by decide, by decide, by decide, by decide⟩

theorem firstCallTrace_count (s : Slot) (env : Nat) (classBefore : Option Nat)
    (found cls value : Nat) :
    (firstCallTrace s env classBefore found cls value).countP s.isLookupOf = 1 := by
  cases s <;> cases classBefore <;> simp [firstCallTrace, Slot.isLookupOf, List.countP_cons]

theorem resolve_first_call_trace {σ : Type} (jni : HostRuntime σ) (c : Call)
    (p : Process (σ × List JNICall)) (hnone : p.statics c.slot = none) :
    ∃ found cls, (resolve jni.traced c p).2.host.2 =
      p.host.2 ++ firstCallTrace c.slot c.env
        (p.statics (Slot.cachedClass c.slot.className)) found cls
        (resolve jni.traced c p).1 := by
  obtain ⟨env, slot⟩ := c
  cases slot with
  | cachedClass C =>
    have h : p.statics (Slot.cachedClass C) = none := hnone
    refine ⟨(jni.FindClass p.host.1 env C).1, 0, ?_⟩
    simp [resolve, getCachedClass, h, HostRuntime.traced, firstCallTrace]
  | cachedField C F S =>
    have h : p.statics (Slot.cachedField C F S) = none := hnone
    cases hc : p.statics (Slot.cachedClass C) with
    | some v =>
      refine ⟨0, 0, ?_⟩
      simp [resolve, getCachedField, getCachedClass, h, hc, HostRuntime.traced,
        firstCallTrace, Slot.className]
    | none =>
      refine ⟨(jni.FindClass p.host.1 env C).1,
        (jni.NewGlobalRef (jni.FindClass p.host.1 env C).2 env
          (jni.FindClass p.host.1 env C).1).1, ?_⟩
      simp [resolve, getCachedField, getCachedClass, h, hc, HostRuntime.traced,
        firstCallTrace, Slot.className]
  | cachedMethod C M S =>
    have h : p.statics (Slot.cachedMethod C M S) = none := hnone
    cases hc : p.statics (Slot.cachedClass C) with
    | some v =>
      refine ⟨0, 0, ?_⟩
      simp [resolve, getCachedMethod, getCachedClass, h, hc, HostRuntime.traced,
        firstCallTrace, Slot.className]
    | none =>
      refine ⟨(jni.FindClass p.host.1 env C).1,
        (jni.NewGlobalRef (jni.FindClass p.host.1 env C).2 env
          (jni.FindClass p.host.1 env C).1).1, ?_⟩
      simp [resolve, getCachedMethod, getCachedClass, h, hc, HostRuntime.traced,
        firstCallTrace, Slot.className]
  | cachedStaticMethod C M S =>
    have h : p.statics (Slot.cachedStaticMethod C M S) = none := hnone
    cases hc : p.statics (Slot.cachedClass C) with
    | some v =>
      refine ⟨0, 0, ?_⟩
      simp [resolve, getCachedStaticMethod, getCachedClass, h, hc, HostRuntime.traced,
        firstCallTrace, Slot.className]
    | none =>
      refine ⟨(jni.FindClass p.host.1 env C).1,
        (jni.NewGlobalRef (jni.FindClass p.host.1 env C).2 env
          (jni.FindClass p.host.1 env C).1).1, ?_⟩
      simp [resolve, getCachedStaticMethod, getCachedClass, h, hc, HostRuntime.traced,
        firstCallTrace, Slot.className]

theorem resolve_later_call {σ : Type} (jni : HostRuntime σ) (c : Call) (p : Process σ)
    (hinv : CacheInv p) (hsome : (p.statics c.slot).isSome = true) :
    (resolve jni c p).2 = p := by
  obtain ⟨v, hv⟩ := Option.isSome_iff_exists.mp hsome
  obtain ⟨_, _, _, _, hit⟩ := resolve_step jni c p hinv
  rw [hit v hv]

theorem resolveAll_hits {σ : Type} (jni : HostRuntime σ) (s : Slot) :
    ∀ (rest : List Call) (p : Process σ) (v : Nat), CacheInv p → p.statics s = some v →
      (∀ d ∈ rest, d.slot = s) → resolveAll jni rest p = (List.replicate rest.length v, p) := by
  intro rest
  induction rest with
  | nil => intro p v _ _ _; rfl
  | cons d rest ih =>
    intro p v hinv hv hall
    have hd : d.slot = s := hall d (List.mem_cons_self d rest)
    obtain ⟨_, _, _, _, hit⟩ := resolve_step jni d p hinv
    rw [hd] at hit
    have hres := hit v hv
    rw [resolveAll_cons, hres]
    simp only
    rw [ih p v hinv hv (fun x hx => hall x (List.mem_cons_of_mem d hx))]
    rfl

/-- C7: handle cache idempotence, on the host runtime with a resolution
counter (the runtime records every JNI invocation). For every sequence of
resolve calls from the start of the process, whichever `JNIEnv*` each call
passes: any two calls on the same resolver instantiation (same class, member
name and signature) return the identical handle; the first call that needs a
slot makes the slot's reflective lookup exactly once, through its own `env`,
and returns the handle the runtime gave; every later call on the slot makes no
JNI invocation at all and leaves the process as it is; so over a sequence of
calls on one triple the runtime has seen the lookup exactly once. -/
theorem handle_cache_idempotent {σ : Type} (jni : HostRuntime σ) (host : σ)
    (calls : List Call) :
    (∀ (i j : Nat) (c d : Call), calls[i]? = some c → calls[j]? = some d →
      c.slot = d.slot →
      ∃ v, (resolveAll jni.traced calls (Process.start (host, []))).1[i]? = some v ∧
        (resolveAll jni.traced calls (Process.start (host, []))).1[j]? = some v) ∧
    (∀ (pre post : List Call) (c : Call), calls = pre ++ c :: post →
      pre.any (fun d => d.slot.needs c.slot) = false →
      ∃ found cls,
        (resolve jni.traced c (tracedAfter jni host pre)).2.host.2 =
          (tracedAfter jni host pre).host.2 ++
            firstCallTrace c.slot c.env
              ((tracedAfter jni host pre).statics (Slot.cachedClass c.slot.className))
              found cls (resolve jni.traced c (tracedAfter jni host pre)).1 ∧
        (firstCallTrace c.slot c.env
          ((tracedAfter jni host pre).statics (Slot.cachedClass c.slot.className))
          found cls (resolve jni.traced c (tracedAfter jni host pre)).1).countP
            c.slot.isLookupOf = 1) ∧
    (∀ (pre post : List Call) (c : Call), calls = pre ++ c :: post →
      pre.any (fun d => d.slot.needs c.slot) = true →
      (resolve jni.traced c (tracedAfter jni host pre)).2 = tracedAfter jni host pre) ∧
    (∀ (s : Slot), calls ≠ [] → (∀ c ∈ calls, c.slot = s) →
      (tracedAfter jni host calls).host.2.countP s.isLookupOf = 1) := by
  have hstart : CacheInv (Process.start (σ := σ × List JNICall) (host, [])) :=
    cacheInv_start (host, [])
  refine ⟨?_, ?_, ?_, ?_⟩
  · intro i j c d hc hd hslot
    obtain ⟨v, hv1, hv2⟩ := resolveAll_values jni.traced calls _ hstart i c hc
    obtain ⟨w, hw1, hw2⟩ := resolveAll_values jni.traced calls _ hstart j d hd
    rw [hslot, hw2] at hv2
    have e : w = v := Option.some.inj hv2
    rw [e] at hw1
    exact ⟨v, hv1, hw1⟩
  · intro pre post c _ hpre
    have hsome := resolveAll_isSome jni.traced pre _ hstart c.slot
    rw [hpre] at hsome
    have hnone : (tracedAfter jni host pre).statics c.slot = none := by
      unfold tracedAfter
      cases hx : (resolveAll jni.traced pre (Process.start (host, []))).2.statics c.slot with
      | none => rfl
      | some v => rw [hx] at hsome; simp [Process.start] at hsome
    obtain ⟨found, cls, htrace⟩ := resolve_first_call_trace jni c _ hnone
    exact ⟨found, cls, htrace, firstCallTrace_count _ _ _ _ _ _⟩
  · intro pre post c _ hpre
    have hsome := resolveAll_isSome jni.traced pre _ hstart c.slot
    rw [hpre] at hsome
    have hinv : CacheInv (tracedAfter jni host pre) := resolveAll_inv jni.traced pre _ hstart
    exact resolve_later_call jni.traced c _ hinv (by
      unfold tracedAfter
      rw [hsome]
      simp)
  · intro s hne hall
    cases calls with
    | nil => exact absurd rfl hne
    | cons c rest =>
      have hc : c.slot = s := hall c (List.mem_cons_self c rest)
      have hnone : (Process.start (σ := σ × List JNICall) (host, [])).statics c.slot = none :=
        rfl
      obtain ⟨found, cls, htrace⟩ := resolve_first_call_trace jni c _ hnone
      obtain ⟨inv1, st1, _, _, _⟩ := resolve_step jni.traced c _ hstart
      rw [hc] at st1
      have hrest := resolveAll_hits jni.traced s rest _ _ inv1 st1
        (fun d hd => hall d (List.mem_cons_of_mem c hd))
      unfold tracedAfter
      rw [resolveAll_cons, hrest]
      simp only
      rw [htrace, List.countP_append, ← hc, firstCallTrace_count]
      rfl

/-- Witness of C7: three `getCachedField` calls on one triple, from three
threads, on a runtime whose every lookup would return a new handle: the three
calls return the handle of the first lookup, and the runtime has seen one
`FindClass`, one `NewGlobalRef` and one `GetFieldID`, all from the first call. -/
theorem handle_cache_idempotent_witness :
    (resolveAll countingRuntime.traced sampleCalls (Process.start (0, []))).1 =
        [101, 101, 101] ∧
      (tracedAfter countingRuntime 0 sampleCalls).host.2 =
        [JNICall.FindClass 1 "A" 100, JNICall.NewGlobalRef 1 100 100,
          JNICall.GetFieldID 1 100 "f" "I" 101] ∧
      (tracedAfter countingRuntime 0 sampleCalls).host.2.countP
        (Slot.cachedField "A" "f" "I").isLookupOf = 1 :=
  ⟨by decide, by decide,
    (handle_cache_idempotent countingRuntime 0 sampleCalls).2.2.2
      (Slot.cachedField "A" "f" "I") (by decide) (by decide)⟩

/-- C8 (as the code has it): `getEnv` returns the accessor of `GetEnv` without
attaching when `GetEnv` gives `JNI_OK`; when `GetEnv` gives `JNI_EDETACHED` it
attaches the thread as a daemon and returns the new accessor, or throws when
the attach fails; for any other result of `GetEnv` it throws without attaching. -/
theorem getEnv_cases (ctx : FunctionPointerContext) :
    ((ctx.javaVm.GetEnv JNI_VERSION_1_2).1 = JNI_OK →
      ctx.getEnv = (EnvResult.returned (ctx.javaVm.GetEnv JNI_VERSION_1_2).2,
        [VMCall.GetEnv])) ∧
    ((ctx.javaVm.GetEnv JNI_VERSION_1_2).1 = JNI_EDETACHED →
      ctx.javaVm.AttachCurrentThreadAsDaemon.1 = JNI_OK →
      ctx.getEnv = (EnvResult.returned ctx.javaVm.AttachCurrentThreadAsDaemon.2,
        [VMCall.GetEnv, VMCall.AttachCurrentThreadAsDaemon])) ∧
    ((ctx.javaVm.GetEnv JNI_VERSION_1_2).1 = JNI_EDETACHED →
      ctx.javaVm.AttachCurrentThreadAsDaemon.1 ≠ JNI_OK →
      ctx.getEnv = (EnvResult.runtime_error "JNI: Failed to attach to current thread.",
        [VMCall.GetEnv, VMCall.AttachCurrentThreadAsDaemon])) ∧
    ((ctx.javaVm.GetEnv JNI_VERSION_1_2).1 ≠ JNI_OK →
      (ctx.javaVm.GetEnv JNI_VERSION_1_2).1 ≠ JNI_EDETACHED →
      ctx.getEnv = (EnvResult.runtime_error "JNI: Failed to get an instance of JNIEnv",
        [VMCall.GetEnv])) := by
  have hne : JNI_EDETACHED ≠ JNI_OK := by decide
  refine ⟨?_, ?_, ?_, ?_⟩
  · intro h
    simp [FunctionPointerContext.getEnv, h]
  · intro h ha
    simp [FunctionPointerContext.getEnv, h, ha, hne]
  · intro h ha
    simp [FunctionPointerContext.getEnv, h, ha, hne]
  · intro h1 h2
    simp [FunctionPointerContext.getEnv, h1, h2]

/-- Witness of C8 as amended: on a detached thread whose attach succeeds,
`getEnv` attaches and returns the new accessor. -/
theorem getEnv_cases_witness :
    (detachedContext.javaVm.GetEnv JNI_VERSION_1_2).1 = JNI_EDETACHED ∧
      detachedContext.javaVm.AttachCurrentThreadAsDaemon.1 = JNI_OK ∧
      detachedContext.getEnv =
        (EnvResult.returned 7, [VMCall.GetEnv, VMCall.AttachCurrentThreadAsDaemon]) :=
  ⟨by decide, by decide, (getEnv_cases detachedContext).2.1 (by decide) (by decide)⟩

/-- Counterexample to C8 as stated: when `GetEnv` reports `JNI_EVERSION`,
`getEnv` does not attach the thread (an attach would have succeeded) and
throws, although no attach failed. -/
theorem getEnv_version_error_throws_without_attach :
    (versionErrorContext.javaVm.GetEnv JNI_VERSION_1_2).1 ≠ JNI_OK ∧
      versionErrorContext.javaVm.AttachCurrentThreadAsDaemon = (JNI_OK, 7) ∧
      versionErrorContext.getEnv =
        (EnvResult.runtime_error "JNI: Failed to get an instance of JNIEnv",
          [VMCall.GetEnv]) := by
  refine ⟨by decide, by decide, by decide⟩

/-- C9 (as the code has it): a resolve call returns the result of the
underlying lookup unchecked, the null handle included. The first call of a
slot returns what `NewGlobalRef(FindClass(..))`, `GetFieldID`, `GetMethodID` or
`GetStaticMethodID` gave; the handle a call returns is the one its slot holds
afterwards, and every later call on the slot returns it again, leaving the
process as it is (no new lookup). -/
theorem resolve_result_unchecked_and_cached {σ : Type} (jni : HostRuntime σ) (host : σ)
    (pre post : List Call) (c d : Call) (hd : d.slot = c.slot) :
    (resolve jni c (stateAfter jni host pre)).2.statics c.slot =
      some (resolve jni c (stateAfter jni host pre)).1 ∧
    resolve jni d (resolveAll jni post (resolve jni c (stateAfter jni host pre)).2).2 =
      ((resolve jni c (stateAfter jni host pre)).1,
        (resolveAll jni post (resolve jni c (stateAfter jni host pre)).2).2) ∧
    (∀ (p : Process σ) (env : Nat) (C : String), p.statics (Slot.cachedClass C) = none →
      (getCachedClass jni C env p).1 =
        (jni.NewGlobalRef (jni.FindClass p.host env C).2 env (jni.FindClass p.host env C).1).1) ∧
    (∀ (p : Process σ) (env : Nat) (C F S : String),
      p.statics (Slot.cachedField C F S) = none →
      (getCachedField jni C F S env p).1 =
        (jni.GetFieldID (getCachedClass jni C env p).2.host env
          (getCachedClass jni C env p).1 F S).1) ∧
    (∀ (p : Process σ) (env : Nat) (C M S : String),
      p.statics (Slot.cachedMethod C M S) = none →
      (getCachedMethod jni C M S env p).1 =
        (jni.GetMethodID (getCachedClass jni C env p).2.host env
          (getCachedClass jni C env p).1 M S).1) ∧
    (∀ (p : Process σ) (env : Nat) (C M S : String),
      p.statics (Slot.cachedStaticMethod C M S) = none →
      (getCachedStaticMethod jni C M S env p).1 =
        (jni.GetStaticMethodID (getCachedClass jni C env p).2.host env
          (getCachedClass jni C env p).1 M S).1) := by
  have hinv : CacheInv (stateAfter jni host pre) :=
    resolveAll_inv jni pre _ (cacheInv_start host)
  obtain ⟨inv1, st1, _, _, _⟩ := resolve_step jni c _ hinv
  refine ⟨st1, ?_, ?_, ?_, ?_, ?_⟩
  · have hq := resolveAll_mono jni post _ inv1 _ _ st1
    have hinvq := resolveAll_inv jni post _ inv1
    obtain ⟨_, _, _, _, hit⟩ := resolve_step jni d _ hinvq
    rw [hd] at hit
    exact hit _ hq
  · intro p env C h
    simp [getCachedClass, h]
  · intro p env C F S h
    simp [getCachedField, h]
  · intro p env C M S h
    simp [getCachedMethod, h]
  · intro p env C M S h
    simp [getCachedStaticMethod, h]

/-- Witness of C9 as amended: on the runtime without members, the first
`getCachedField` call returns the null handle and, after an unrelated call,
a second call from another thread returns it again. -/
theorem resolve_result_unchecked_and_cached_witness :
    (resolve memberlessRuntime { env := 1, slot := Slot.cachedField "A" "f" "I" }
        (stateAfter memberlessRuntime () [])).1 = 0 ∧
      resolve memberlessRuntime { env := 2, slot := Slot.cachedField "A" "f" "I" }
          (resolveAll memberlessRuntime [{ env := 2, slot := Slot.cachedClass "B" }]
            (resolve memberlessRuntime { env := 1, slot := Slot.cachedField "A" "f" "I" }
              (stateAfter memberlessRuntime () [])).2).2 =
        ((resolve memberlessRuntime { env := 1, slot := Slot.cachedField "A" "f" "I" }
            (stateAfter memberlessRuntime () [])).1,
          (resolveAll memberlessRuntime [{ env := 2, slot := Slot.cachedClass "B" }]
            (resolve memberlessRuntime { env := 1, slot := Slot.cachedField "A" "f" "I" }
              (stateAfter memberlessRuntime () [])).2).2) :=
  ⟨by decide,
    (resolve_result_unchecked_and_cached memberlessRuntime () []
      [{ env := 2, slot := Slot.cachedClass "B" }]
      { env := 1, slot := Slot.cachedField "A" "f" "I" }
      { env := 2, slot := Slot.cachedField "A" "f" "I" } rfl).2.1⟩

/-- Counterexample to C9 as stated: where the class does not exist,
`getCachedClass` returns the null handle to its caller and stores it, and the
next caller receives the null handle too; where the member does not exist,
`getCachedField`, `getCachedMethod` and `getCachedStaticMethod` return the
null handle and store it. -/
theorem failed_lookup_returns_and_stores_null :
    (getCachedClass emptyRuntime "A" 1 (Process.start ())).1 = 0 ∧
      (getCachedClass emptyRuntime "A" 1 (Process.start ())).2.statics
        (Slot.cachedClass "A") = some 0 ∧
      (getCachedClass emptyRuntime "A" 2
        (getCachedClass emptyRuntime "A" 1 (Process.start ())).2).1 = 0 ∧
      (getCachedField memberlessRuntime "A" "f" "I" 1 (Process.start ())).1 = 0 ∧
      (getCachedField memberlessRuntime "A" "f" "I" 1 (Process.start ())).2.statics
        (Slot.cachedField "A" "f" "I") = some 0 ∧
      (getCachedMethod memberlessRuntime "A" "m" "()V" 1 (Process.start ())).1 = 0 ∧
      (getCachedStaticMethod memberlessRuntime "A" "m" "()V" 1 (Process.start ())).1 = 0 := by
  refine ⟨by decide, by decide, by decide, by decide, by decide, by decide, by decide⟩

/-- C11: uint8 bit-exactness. For every live uint8 cell handle `h` and every
host byte `v`, `setUnsignedValue` stores the unsigned value `v mod 256` in the
native cell and a following `getUnsignedValue` returns `v`, whose low 8 bits
are the stored value. -/
theorem uint8_set_stores_low_bits (heap : Heap) (h v : Int)
    (hlive : LiveCell heap h 1) (hv : IsJByte v) :
    ∃ heap',
      Java_com_github_novelrt_fumocement_builtin_UInt8Pointer_setUnsignedValue heap h v
        = some heap' ∧
      derefUnsigned heap' (toNativePointer h) 1 = some (v % 256) ∧
      Java_com_github_novelrt_fumocement_builtin_UInt8Pointer_getUnsignedValue heap' h
        = some v := by
  obtain ⟨heap', h1, h2⟩ :=
    assign_derefUnsigned heap (toNativePointer h) 1 (wrapUnsigned 8 v) hlive
  have e : wrapUnsigned 8 v % 2 ^ (8 * 1) = v % 256 := by
    unfold wrapUnsigned
    norm_num
  rw [e] at h2
  refine ⟨heap', h1, h2, ?_⟩
  unfold Java_com_github_novelrt_fumocement_builtin_UInt8Pointer_getUnsignedValue
  rw [h2, Option.map_some']
  have e2 : wrapSigned 8 (v % 256) = wrapSigned 8 v := by
    have := wrapSigned_emod 8 v
    norm_num at this
    exact this
  rw [e2, wrapSigned_of_isSigned 8 v (by decide) hv]

/-- Witness of C11: storing the host value `-1` (bit pattern 255) in the uint8
cell at address 4096 leaves 255 in the cell and reads back as `-1`, whose low
8 bits are 255. -/
theorem uint8_set_stores_low_bits_witness :
    (-1 : Int) % 256 = 255 ∧
      ∃ heap',
        Java_com_github_novelrt_fumocement_builtin_UInt8Pointer_setUnsignedValue
          (Heap.single 4096 1) 4096 (-1) = some heap' ∧
        derefUnsigned heap' (toNativePointer 4096) 1 = some ((-1) % 256) ∧
        Java_com_github_novelrt_fumocement_builtin_UInt8Pointer_getUnsignedValue heap' 4096
          = some (-1) :=
  ⟨by decide, uint8_set_stores_low_bits (Heap.single 4096 1) 4096 (-1) (by decide) (by decide)⟩

/-! ## Frame of the accessors -/

theorem writeBytes_outside (mem : Nat → Nat) (a n u q : Nat)
    (hq : ¬ (a ≤ q ∧ q < a + n)) : writeBytes mem a n u q = mem q := by
  unfold writeBytes
  rw [if_neg hq]

theorem readBytes_congr (mem mem' : Nat → Nat) : ∀ (n a : Nat),
    (∀ q, a ≤ q → q < a + n → mem' q = mem q) → readBytes mem' a n = readBytes mem a n := by
  intro n
  induction n with
  | zero => intro a _; rfl
  | succ n ih =>
    intro a hq
    rw [readBytes, readBytes, hq a (Nat.le_refl a) (by omega),
      ih (a + 1) (fun q h1 h2 => hq q (by omega) (by omega))]

theorem assign_eq (heap : Heap) (p n : Nat) (x : Int) (hlive : (p, n) ∈ heap.live) :
    assign heap p n x =
      some { heap with mem := writeBytes heap.mem p n (x % 2 ^ (8 * n)).toNat } := by
  unfold assign
  rw [if_pos hlive]

theorem assign_mem_outside (heap heap' : Heap) (p n : Nat) (x : Int)
    (h : assign heap p n x = some heap') (q : Nat) (hq : ¬ (p ≤ q ∧ q < p + n)) :
    heap'.mem q = heap.mem q := by
  unfold assign at h
  split at h
  · cases h
    exact writeBytes_outside _ _ _ _ _ hq
  · cases h

theorem derefUnsigned_frame (heap heap' : Heap) (b m : Nat)
    (hlive : heap'.live = heap.live)
    (hmem : ∀ q, b ≤ q → q < b + m → heap'.mem q = heap.mem q) :
    derefUnsigned heap' b m = derefUnsigned heap b m := by
  unfold derefUnsigned
  rw [hlive, readBytes_congr heap.mem heap'.mem m b hmem]

theorem derefSigned_frame (heap heap' : Heap) (b m : Nat)
    (hlive : heap'.live = heap.live)
    (hmem : ∀ q, b ≤ q → q < b + m → heap'.mem q = heap.mem q) :
    derefSigned heap' b m = derefSigned heap b m := by
  unfold derefSigned
  rw [hlive, readBytes_congr heap.mem heap'.mem m b hmem]

theorem cellKind_set_eq_assign (k : CellKind) (h v : Int) :
    ∃ x, ∀ heap, k.set heap h v = assign heap (toNativePointer h) k.size x := by
  cases k with
  | integer k => cases k <;> exact ⟨_, fun _ => rfl⟩
  | float32 => exact ⟨_, fun _ => rfl⟩
  | float64 => exact ⟨_, fun _ => rfl⟩
  | indirected => exact ⟨_, fun _ => rfl⟩

theorem cellKind_get_frame (k : CellKind) (heap heap' : Heap) (h : Int)
    (hlive : heap'.live = heap.live)
    (hmem : ∀ q, toNativePointer h ≤ q → q < toNativePointer h + k.size →
      heap'.mem q = heap.mem q) :
    k.get heap' h = k.get heap h := by
  have hu := derefUnsigned_frame heap heap' (toNativePointer h) k.size hlive hmem
  have hs := derefSigned_frame heap heap' (toNativePointer h) k.size hlive hmem
  cases k with
  | integer k =>
    cases k
    · exact congrArg (Option.map (wrapSigned 8)) hs
    · exact congrArg (Option.map (wrapSigned 16)) hs
    · exact congrArg (Option.map (wrapSigned 32)) hs
    · exact congrArg (Option.map (wrapSigned 64)) hs
    · exact congrArg (Option.map (wrapSigned 8)) hu
    · exact congrArg (Option.map (wrapUnsigned 16)) hu
    · exact congrArg (Option.map (wrapSigned 32)) hu
    · exact congrArg (Option.map (wrapSigned 64)) hu
  | float32 => exact hu
  | float64 => exact hu
  | indirected =>
    have hu8 : derefUnsigned heap' (toNativePointer h) 8 =
        derefUnsigned heap (toNativePointer h) 8 := hu
    show Option.map (fun p : Int => toJavaPointer p.toNat)
        (derefUnsigned heap' (toNativePointer h) 8) =
      Option.map (fun p : Int => toJavaPointer p.toNat)
        (derefUnsigned heap (toNativePointer h) 8)
    rw [hu8]

theorem access_get_run_heap (k : CellKind) (h : Int) (heap after : Heap) (r : Option Int)
    (hrun : (Access.get k h).run heap = some (r, after)) : after = heap := by
  simp only [Access.run, Option.map_eq_some', Prod.mk.injEq] at hrun
  obtain ⟨_, _, _, hafter⟩ := hrun
  exact hafter.symm

theorem cellKind_get_isSome (k : CellKind) (heap : Heap) (h : Int)
    (hlive : LiveCell heap h k.size) : (k.get heap h).isSome = true := by
  have hin : (toNativePointer h, k.size) ∈ heap.live := hlive
  have hu : (derefUnsigned heap (toNativePointer h) k.size).isSome = true := by
    unfold derefUnsigned
    rw [if_pos hin]
    rfl
  have hs : (derefSigned heap (toNativePointer h) k.size).isSome = true := by
    unfold derefSigned
    rw [if_pos hin]
    rfl
  have hmap : ∀ (o : Option Int) (f : Int → Int), o.isSome = true → (o.map f).isSome = true := by
    intro o f ho
    cases o with
    | none => cases ho
    | some x => rfl
  cases k with
  | integer k =>
    cases k
    · exact hmap _ (wrapSigned 8) hs
    · exact hmap _ (wrapSigned 16) hs
    · exact hmap _ (wrapSigned 32) hs
    · exact hmap _ (wrapSigned 64) hs
    · exact hmap _ (wrapSigned 8) hu
    · exact hmap _ (wrapUnsigned 16) hu
    · exact hmap _ (wrapSigned 32) hu
    · exact hmap _ (wrapSigned 64) hu
  | float32 => exact hu
  | float64 => exact hu
  | indirected =>
    have hu8 : (derefUnsigned heap (toNativePointer h) 8).isSome = true := hu
    exact hmap (derefUnsigned heap (toNativePointer h) 8)
      (fun p : Int => toJavaPointer p.toNat) hu8

/-- C12: independence of distinct handles over the byte-addressed heap. For
every primitive kind `k` and every live cell handle `h`, the write accessor
succeeds and changes only the bytes of the cell at `h` (the set of live cells
stays as it is); for every other live cell handle `h2`, of any kind, whose
cell does not overlap the cell at `h`, the read accessor returns a value, the
same after the write as before it; and a read accessor call leaves the heap
unchanged. -/
theorem set_changes_only_its_cell (k : CellKind) (heap : Heap) (h v : Int)
    (hlive : LiveCell heap h k.size) :
    ∃ heap', k.set heap h v = some heap' ∧
      (∀ q, ¬ (toNativePointer h ≤ q ∧ q < toNativePointer h + k.size) →
        heap'.mem q = heap.mem q) ∧
      heap'.live = heap.live ∧
      (∀ (k2 : CellKind) (h2 : Int), LiveCell heap h2 k2.size →
        CellsApart (toNativePointer h) k.size (toNativePointer h2) k2.size →
        ∃ r, k2.get heap h2 = some r ∧ k2.get heap' h2 = some r) ∧
      (∀ (k2 : CellKind) (h2 : Int) (state after : Heap) (r : Option Int),
        (Access.get k2 h2).run state = some (r, after) → after = state) := by
  obtain ⟨x, hx⟩ := cellKind_set_eq_assign k h v
  have hassign := assign_eq heap (toNativePointer h) k.size x hlive
  refine ⟨_, (hx heap).trans hassign, ?_, rfl, ?_, ?_⟩
  · intro q hq
    exact assign_mem_outside heap _ _ _ x hassign q hq
  · intro k2 h2 hlive2 hapart
    have hframe := cellKind_get_frame k2 heap
      { heap with
        mem := writeBytes heap.mem (toNativePointer h) k.size (x % 2 ^ (8 * k.size)).toNat }
      h2 rfl
      (fun q h1 h3 => assign_mem_outside heap _ _ _ x hassign q (by
        unfold CellsApart at hapart
        omega))
    have hsome := cellKind_get_isSome k2 heap h2 hlive2
    obtain ⟨r, hr⟩ := Option.isSome_iff_exists.mp hsome
    exact ⟨r, hr, hframe.trans hr⟩
  · intro k2 h2 state after r hrun
    exact access_get_run_heap k2 h2 state after r hrun

/-- Witness of C12: on the heap with an int8 cell at 4096 and an int64 cell at
4104, writing 5 to the int8 cell leaves the int64 cell reading `-1` as
before. -/
theorem set_changes_only_its_cell_witness :
    (CellKind.integer Kind.int64).get Heap.twoCells 4104 = some (-1) ∧
      ∃ heap', (CellKind.integer Kind.int8).set Heap.twoCells 4096 5 = some heap' ∧
        (CellKind.integer Kind.int8).get heap' 4096 = some 5 ∧
        (CellKind.integer Kind.int64).get heap' 4104 = some (-1) := by
  refine ⟨by decide, ?_⟩
  obtain ⟨heap', hset, _, _, hother, _⟩ :=
    set_changes_only_its_cell (CellKind.integer Kind.int8) Heap.twoCells 4096 5 (by decide)
  obtain ⟨r, hr1, hr2⟩ := hother (CellKind.integer Kind.int64) 4104 (by decide) (by decide)
  have hr : r = -1 := by
    have h0 : (CellKind.integer Kind.int64).get Heap.twoCells 4104 = some (-1) := by decide
    rw [h0] at hr1
    exact (Option.some.inj hr1).symm
  obtain ⟨heap2, hset2, hget2⟩ :=
    signed_cell_roundtrip Heap.twoCells (toNativePointer 4096) 1 5 (by decide) (by decide)
      (by decide)
  have hsame : heap2 = heap' := by
    have e : some heap2 = some heap' := hset2.symm.trans hset
    exact Option.some.inj e
  rw [hsame] at hget2
  rw [hr] at hr2
  exact ⟨heap', hset, hget2, hr2⟩

end FumoCement
